import Mathlib

set_option linter.unusedSectionVars false

/-!
Shallow embedding of the TrafficSimulator core (src/core) and verification of
the frozen claims about it.

Conventions used throughout:

* Python machine floats are modelled as exact rationals (`ℚ`); the special
  value `float('inf')` is modelled by the two-constructor type `Flt`.
  `math.sqrt` is modelled by `Rat.sqrt`, which agrees with the real square
  root on perfect squares — every concrete input appearing in this
  development is a perfect square.
* Python exceptions are modelled with `Except PyErr`.  The statement
  `par[1] = valor` in `HashTable.insertar` assigns into a *tuple*
  (`bucket.agregar((clave, valor))` stores tuples), which raises
  `TypeError` in Python; it is modelled by `PyErr.typeError`.
  Unbounded `while` loops are modelled with explicit fuel; running out of
  fuel yields the artificial error `PyErr.fuelExhausted`, distinguished
  from every genuine Python exception.
* `ListaEnlazada` (a singly linked list with append-at-tail, first-match
  removal by equality, and materialisation in insertion order) is modelled
  by `List` with the corresponding operations.
* `None`-able Python values are modelled by `Option`.  A `HashTable` lookup
  returns the stored object or `None`; for tables whose stored values can
  themselves be `None` the observable result conflates the two (see the
  `obtenerOpt` wrapper used for claim C10).
-/

/-- Python-level outcomes of running a piece of code that can raise.
`typeError` models the `TypeError` raised by tuple item assignment
(`par[1] = valor` in `HashTable.insertar`) and by other dynamic-type
failures; `fuelExhausted` is an artefact of bounding `while` loops. -/
inductive PyErr : Type where
  | typeError : PyErr
  | attributeError : PyErr
  | fuelExhausted : PyErr
deriving DecidableEq, Repr

/-- A Python float that is either a finite value (exact rational) or
`float('inf')`. -/
inductive Flt : Type where
  | fin : ℚ → Flt
  | inf : Flt
deriving DecidableEq, Repr

namespace Flt

/-- `<` on modelled floats: every finite value is below `inf`. -/
def lt : Flt → Flt → Bool
  | fin a, fin b => a < b
  | fin _, inf => true
  | inf, _ => false

/-- Addition on modelled floats (`inf` absorbs). -/
def add : Flt → Flt → Flt
  | fin a, fin b => fin (a + b)
  | _, _ => inf

end Flt

/-- Python's `hash` on non-negative machine integers (`hash(n) = n mod 2^61-1`
for the values relevant here; all keys in this development are small node and
vehicle ids, where the function is the identity). -/
def pyHashNat (n : Nat) : Nat := n % (2 ^ 61 - 1)

/-- Binary search for the integer square root (floor), with structural
fuel so that the kernel can evaluate it.  The invariant is
`lo² ≤ n < hi²`. -/
def natSqrtGo : Nat → Nat → Nat → Nat → Nat
  | 0, _, lo, _ => lo
  | fuel + 1, n, lo, hi =>
    if hi ≤ lo + 1 then lo
    else
      let mid := (lo + hi) / 2
      if mid * mid ≤ n then natSqrtGo fuel n mid hi
      else natSqrtGo fuel n lo mid

/-- Integer square root (floor). -/
def natSqrtFloor (n : Nat) : Nat := natSqrtGo (n + 2) n 0 (n + 1)

/-- `math.sqrt`, modelled exactly on rationals (square root of numerator
and denominator).  Agrees with the real square root on perfect squares;
every use in this development is on a perfect square. -/
def pySqrt (q : ℚ) : ℚ :=
  (natSqrtFloor q.num.toNat : ℚ) / (natSqrtFloor q.den : ℚ)

/-! ## `ListaEnlazada` (estructuras_datos.py, lines 13-69)

The linked list is modelled by `List` in insertion order:
`agregar` appends at the tail, `eliminar` removes the first element equal to
the argument and reports whether one was found, `obtener_lista` is the
identity, `buscar` is membership, `obtener_tamano` is the length. -/

namespace ListaEnlazada

/-- `ListaEnlazada.agregar`: append at the tail. -/
def agregar (l : List α) (x : α) : List α := l ++ [x]

/-- `ListaEnlazada.eliminar`: remove the first element equal to `x`;
returns the success flag and the updated list. -/
def eliminar [DecidableEq α] : List α → α → Bool × List α
  | [], _ => (false, [])
  | a :: l, x =>
    if a = x then (true, l)
    else
      let r := eliminar l x
      (r.1, a :: r.2)

/-- `ListaEnlazada.buscar`: membership test. -/
def buscar [DecidableEq α] (l : List α) (x : α) : Bool := l.contains x

end ListaEnlazada

/-! ## `HashTable` (estructuras_datos.py, lines 129-202)

Separate chaining over a list of buckets; each bucket is a `ListaEnlazada`
of `(clave, valor)` tuples, modelled as a `List` of pairs in insertion
order.  The table is generic in the key type `κ` (with its Python hash
function passed explicitly) and the stored value type `V`. -/

structure HashTable (κ V : Type) : Type where
  capacidad : Nat
  tamano : Nat
  buckets : List (List (κ × V))
deriving DecidableEq, Repr

namespace HashTable

variable {κ V : Type} [DecidableEq κ] [DecidableEq V]

/-- `HashTable.__init__`: `capacidad_inicial` empty buckets. -/
def vacia (capacidadInicial : Nat := 16) : HashTable κ V :=
  ⟨capacidadInicial, 0, List.replicate capacidadInicial []⟩

/-- `HashTable._hash` composed with the bucket lookup index:
`hash(clave) % self.capacidad`. -/
def indice (hf : κ → Nat) (t : HashTable κ V) (k : κ) : Nat :=
  hf k % t.capacidad

/-- The bucket `self.buckets[self._hash(clave)]`. -/
def bucketDe (hf : κ → Nat) (t : HashTable κ V) (k : κ) : List (κ × V) :=
  t.buckets.getD (indice hf t k) []

/-- `HashTable.obtener`: scan the key's bucket for the first pair with a
matching key and return its stored value; `none` models Python's `None`
result for an absent key. -/
def obtener (hf : κ → Nat) (t : HashTable κ V) (k : κ) : Option V :=
  ((bucketDe hf t k).find? fun par => par.1 = k).map (·.2)

/-- Whether the key's bucket holds a pair with this key (the condition that
sends `HashTable.insertar` into its update branch). -/
def tieneClave (hf : κ → Nat) (t : HashTable κ V) (k : κ) : Bool :=
  (bucketDe hf t k).any fun par => par.1 = k

/-- `HashTable.contiene`: `self.obtener(clave) is not None`.  (For tables
whose stored values are never Python `None`, as in the graph; the variant
for `None`-storing tables is `contieneOpt` below.) -/
def contiene (hf : κ → Nat) (t : HashTable κ V) (k : κ) : Bool :=
  (obtener hf t k).isSome

/-- State of the table after appending a fresh `(clave, valor)` pair to the
key's bucket and incrementing `tamano` (the non-update path of
`HashTable.insertar`, before the `_redimensionar` check). -/
def agregaPar (hf : κ → Nat) (t : HashTable κ V) (k : κ) (v : V) :
    HashTable κ V :=
  ⟨t.capacidad, t.tamano + 1,
    t.buckets.set (indice hf t k) (ListaEnlazada.agregar (bucketDe hf t k) (k, v))⟩

/-- The re-insertion loop of `HashTable._redimensionar`: `for bucket in
buckets_viejos: for par in bucket.obtener_lista(): self.insertar(...)`,
iterating over all stored pairs bucket by bucket in order; `paso` is the
single-pair insertion being invoked. -/
def insertaTodosF (paso : HashTable κ V → κ → V → Except PyErr (HashTable κ V)) :
    List (κ × V) → HashTable κ V → Except PyErr (HashTable κ V)
  | [], acc => .ok acc
  | par :: resto, acc =>
    match paso acc par.1 par.2 with
    | .error e => .error e
    | .ok acc1 => insertaTodosF paso resto acc1

/-- `HashTable.insertar` together with `HashTable._redimensionar`
(lines 141-165), with explicit fuel bounding the nesting depth of resizes.

The update branch executes `par[1] = valor` on a stored *tuple*, which
raises `TypeError` in Python — modelled by `.error .typeError`.

`_redimensionar` fires when `tamano >= capacidad * 0.75` (exactly
`4 * tamano ≥ 3 * capacidad` on machine floats), doubles the capacity,
resets `tamano` to `0`, and re-inserts every stored pair, bucket by bucket
in order, through `insertar` itself. -/
def insertarGo (hf : κ → Nat) :
    Nat → HashTable κ V → κ → V → Except PyErr (HashTable κ V)
  | 0 => fun _ _ _ => .error .fuelExhausted
  | fuel + 1 => fun t k v =>
    if tieneClave hf t k then
      .error .typeError
    else
      if 4 * (agregaPar hf t k v).tamano ≥ 3 * (agregaPar hf t k v).capacidad then
        insertaTodosF (fun t' k' v' => insertarGo hf fuel t' k' v')
          (agregaPar hf t k v).buckets.flatten
          ⟨(agregaPar hf t k v).capacidad * 2, 0,
            List.replicate ((agregaPar hf t k v).capacidad * 2) []⟩
      else
        .ok (agregaPar hf t k v)

/-- `HashTable.insertar` with enough fuel for every state reachable by the
program (resize nesting is bounded by the table size; the fuel formula is
generous). -/
def insertar (hf : κ → Nat) (t : HashTable κ V) (k : κ) (v : V) :
    Except PyErr (HashTable κ V) :=
  insertarGo hf (t.tamano + t.capacidad + 1) t k v

/-- `HashTable.eliminar`: find the first pair of the key's bucket with a
matching key and remove it from the bucket (`bucket.eliminar(par)` removes
the first pair *equal* to the found one; since the found pair is the first
with this key and every earlier pair has a different key, that is exactly
the found pair), decrementing `tamano`; returns the success flag. -/
def eliminar (hf : κ → Nat) (t : HashTable κ V) (k : κ) :
    Bool × HashTable κ V :=
  match (bucketDe hf t k).find? (fun par => par.1 = k) with
  | none => (false, t)
  | some par =>
    (true,
      ⟨t.capacidad, t.tamano - 1,
        t.buckets.set (indice hf t k)
          (ListaEnlazada.eliminar (bucketDe hf t k) par).2⟩)

/-- Rewrite the first pair of a bucket carrying key `k` by applying `f` to
its stored value (the bucket-level effect of mutating, in place, the object
that `obtener` would return). -/
def muta (k : κ) (f : V → V) : List (κ × V) → List (κ × V)
  | [] => []
  | (k', v) :: rest =>
    if k' = k then (k', f v) :: rest else (k', v) :: muta k f rest

/-- In-place mutation of the object stored under key `k` (Python callers
obtain the stored object via `obtener` and mutate it; the table keeps
pointing at it).  Modelled by rewriting the first pair of the key's bucket
that carries the key. -/
def modificaEnSitio (hf : κ → Nat) (t : HashTable κ V) (k : κ) (f : V → V) :
    HashTable κ V :=
  ⟨t.capacidad, t.tamano,
    t.buckets.set (indice hf t k) (muta k f (bucketDe hf t k))⟩

/-- `HashTable.obtener_claves`: all keys, bucket by bucket in order. -/
def obtenerClaves (t : HashTable κ V) : List κ :=
  t.buckets.flatten.map (·.1)

/-- `HashTable.obtener_valores`: all stored values, bucket by bucket. -/
def obtenerValores (t : HashTable κ V) : List V :=
  t.buckets.flatten.map (·.2)

/-- Structural well-formedness of a table, maintained by every reachable
program state: positive capacity, one bucket per capacity slot, `tamano`
counting the stored pairs, and every pair sitting in the bucket its key
hashes to. -/
def WF (hf : κ → Nat) (t : HashTable κ V) : Prop :=
  0 < t.capacidad ∧
  t.buckets.length = t.capacidad ∧
  t.tamano = t.buckets.flatten.length ∧
  ∀ i < t.buckets.length, ∀ p ∈ t.buckets.getD i [], hf p.1 % t.capacidad = i

instance (hf : κ → Nat) (t : HashTable κ V) : Decidable (WF hf t) := by
  unfold WF; infer_instance

end HashTable


/-! ## Graph model (grafo_trafico.py)

Nodes are value records (they are never mutated after creation); edges are
records whose mutable fields (`peso_actual`, `bloqueada`, `carga_trafico`)
are mutated in place inside the adjacency lists, modelled through
`HashTable.modificaEnSitio` and positional updates. -/

/-- `NodoGrafo` (grafo_trafico.py, lines 10-24). -/
structure NodoGrafo : Type where
  id : Nat
  x : ℚ
  y : ℚ
  nombre : String
  activo : Bool
  tipo : String
deriving DecidableEq, Repr

/-- `NodoGrafo.__init__`: the default display name is generated from the
id. -/
def NodoGrafo.nuevo (idNodo : Nat) (x y : ℚ) (nombre : String := "") :
    NodoGrafo :=
  ⟨idNodo, x, y, if nombre = "" then "Nodo_" ++ toString idNodo else nombre,
    true, "ciudad"⟩

/-- `AristaGrafo` (grafo_trafico.py, lines 26-67). -/
structure AristaGrafo : Type where
  origen : NodoGrafo
  destino : NodoGrafo
  peso_base : ℚ
  peso_actual : ℚ
  bidireccional : Bool
  bloqueada : Bool
  carga_trafico : Nat
  capacidad_maxima : Nat
  tipo : String
deriving DecidableEq, Repr

namespace AristaGrafo

/-- `AristaGrafo.__init__`: `peso_base = peso_actual = peso`, not blocked,
zero load, capacity 10. -/
def nueva (nodoOrigen nodoDestino : NodoGrafo) (peso : ℚ := 1)
    (bidireccional : Bool := true) : AristaGrafo :=
  ⟨nodoOrigen, nodoDestino, peso, peso, bidireccional, false, 0, 10,
    "carretera"⟩

/-- `AristaGrafo.calcular_peso_dinamico`: a blocked edge yields
`float('inf')` *without touching* `peso_actual`; otherwise
`peso_actual = peso_base * (1 + (carga/max(capacidad,1)) * 2)` is stored
and returned. -/
def calcular_peso_dinamico (a : AristaGrafo) : Flt × AristaGrafo :=
  if a.bloqueada then (.inf, a)
  else
    let factor : ℚ :=
      1 + ((a.carga_trafico : ℚ) / ((max a.capacidad_maxima 1 : Nat) : ℚ)) * 2
    (.fin (a.peso_base * factor), { a with peso_actual := a.peso_base * factor })

/-- `AristaGrafo.agregar_vehiculo`: increment the load, then recompute the
dynamic weight. -/
def agregar_vehiculo (a : AristaGrafo) : AristaGrafo :=
  (calcular_peso_dinamico { a with carga_trafico := a.carga_trafico + 1 }).2

/-- `AristaGrafo.remover_vehiculo`: decrement the load if positive, then
recompute the dynamic weight; a no-op at zero load. -/
def remover_vehiculo (a : AristaGrafo) : AristaGrafo :=
  if a.carga_trafico > 0 then
    (calcular_peso_dinamico { a with carga_trafico := a.carga_trafico - 1 }).2
  else a

/-- `AristaGrafo.obtener_distancia_euclidiana`. -/
def obtener_distancia_euclidiana (a : AristaGrafo) : ℚ :=
  pySqrt ((a.destino.x - a.origen.x) * (a.destino.x - a.origen.x) +
    (a.destino.y - a.origen.y) * (a.destino.y - a.origen.y))

end AristaGrafo

/-- `GrafoTrafico` (grafo_trafico.py, lines 69-75): a table from node id to
node, a table from node id to its outgoing edge list, the id counter and
the logical edge count. -/
structure GrafoTrafico : Type where
  nodos : HashTable Nat NodoGrafo
  lista_adyacencia : HashTable Nat (List AristaGrafo)
  contador_nodos : Nat
  aristas_totales : Nat
deriving DecidableEq, Repr

namespace GrafoTrafico

/-- `GrafoTrafico.__init__`. -/
def nuevo : GrafoTrafico :=
  ⟨HashTable.vacia 16, HashTable.vacia 16, 0, 0⟩

/-- `GrafoTrafico.agregar_nodo`: increments the counter, registers the node
and an empty adjacency list.  Both `HashTable.insertar` calls are on fresh
keys, but their resize path can run, so the result is `Except`-valued. -/
def agregar_nodo (g : GrafoTrafico) (x y : ℚ) (nombre : String := "") :
    Except PyErr (NodoGrafo × GrafoTrafico) := do
  let idNodo := g.contador_nodos + 1
  let nodo := NodoGrafo.nuevo idNodo x y nombre
  let nodos' ← HashTable.insertar pyHashNat g.nodos idNodo nodo
  let ady' ← HashTable.insertar pyHashNat g.lista_adyacencia idNodo []
  .ok (nodo, ⟨nodos', ady', idNodo, g.aristas_totales⟩)

/-- `GrafoTrafico.obtener_aristas_nodo`: the outgoing edge list, `[]` when
the id has no adjacency entry. -/
def obtener_aristas_nodo (g : GrafoTrafico) (idNodo : Nat) :
    List AristaGrafo :=
  (HashTable.obtener pyHashNat g.lista_adyacencia idNodo).getD []

/-- `GrafoTrafico.agregar_arista` (lines 85-111): fails (returns `false`)
when either endpoint is missing; a weight *equal to 1* (the default) is
replaced by the Euclidean distance between the endpoints divided by 50; a
bidirectional edge adds a second, independent reversed record; the edge
counter grows by one per call. -/
def agregar_arista (g : GrafoTrafico) (idOrigen idDestino : Nat)
    (peso : ℚ := 1) (bidireccional : Bool := true) :
    Except PyErr (Bool × GrafoTrafico) :=
  match HashTable.obtener pyHashNat g.nodos idOrigen,
      HashTable.obtener pyHashNat g.nodos idDestino with
  | some nodoOrigen, some nodoDestino =>
    let dx := nodoDestino.x - nodoOrigen.x
    let dy := nodoDestino.y - nodoOrigen.y
    let peso' := if peso = 1 then pySqrt (dx * dx + dy * dy) / 50 else peso
    let arista := AristaGrafo.nueva nodoOrigen nodoDestino peso' bidireccional
    match HashTable.obtener pyHashNat g.lista_adyacencia idOrigen with
    | none => .error .attributeError
    | some _ =>
      let ady1 := HashTable.modificaEnSitio pyHashNat g.lista_adyacencia
        idOrigen (fun l => ListaEnlazada.agregar l arista)
      if bidireccional then
        let inversa := AristaGrafo.nueva nodoDestino nodoOrigen peso' true
        match HashTable.obtener pyHashNat ady1 idDestino with
        | none => .error .attributeError
        | some _ =>
          let ady2 := HashTable.modificaEnSitio pyHashNat ady1 idDestino
            (fun l => ListaEnlazada.agregar l inversa)
          .ok (true, ⟨g.nodos, ady2, g.contador_nodos, g.aristas_totales + 1⟩)
      else
        .ok (true, ⟨g.nodos, ady1, g.contador_nodos, g.aristas_totales + 1⟩)
  | _, _ => .ok (false, g)

/-- `GrafoTrafico._eliminar_aristas_hacia_nodo`: collect the edges of
`idOrigen`'s list whose destination is `idDestino`, then remove each of
them (first equal match) from that list.  When the id has no adjacency
entry nothing happens (`if lista_aristas:` only rules out `None`). -/
def eliminar_aristas_hacia_nodo (g : GrafoTrafico) (idOrigen idDestino : Nat) :
    GrafoTrafico :=
  match HashTable.obtener pyHashNat g.lista_adyacencia idOrigen with
  | none => g
  | some l =>
    let colectadas := l.filter fun a => a.destino.id = idDestino
    { g with lista_adyacencia :=
        (HashTable.modificaEnSitio pyHashNat g.lista_adyacencia idOrigen
          (fun lista =>
            colectadas.foldl (fun acc a => (ListaEnlazada.eliminar acc a).2)
              lista)) }

/-- `GrafoTrafico.eliminar_nodo` (lines 113-126): for every *other* node id
prune the edges pointing at `idNodo`, then drop the node and its adjacency
list. -/
def eliminar_nodo (g : GrafoTrafico) (idNodo : Nat) : Bool × GrafoTrafico :=
  if HashTable.contiene pyHashNat g.nodos idNodo = false then (false, g)
  else
    let g1 := (HashTable.obtenerClaves g.nodos).foldl
      (fun acc u =>
        if u ≠ idNodo then eliminar_aristas_hacia_nodo acc u idNodo else acc) g
    (true,
      { g1 with
        nodos := (HashTable.eliminar pyHashNat g1.nodos idNodo).2,
        lista_adyacencia :=
          (HashTable.eliminar pyHashNat g1.lista_adyacencia idNodo).2 })

/-- `GrafoTrafico.obtener_vecinos` (lines 140-150): the non-blocked edges
with an active destination, as `(destination node, current weight)` pairs;
`[]` when the id has no adjacency entry. -/
def obtener_vecinos (g : GrafoTrafico) (idNodo : Nat) :
    List (NodoGrafo × ℚ) :=
  match HashTable.obtener pyHashNat g.lista_adyacencia idNodo with
  | none => []
  | some l =>
    (l.filter fun a => !a.bloqueada && a.destino.activo).map
      fun a => (a.destino, a.peso_actual)

/-- Positional in-place update of the `bloqueada` flag of the `j`-th edge
record of a list (the effect of `arista.bloqueada = b` on the list that
owns the edge object). -/
def setBloqueadaEn (l : List AristaGrafo) (j : Nat) (b : Bool) :
    List AristaGrafo :=
  match l[j]? with
  | some a => l.set j { a with bloqueada := b }
  | none => l

/-- The loop of `bloquear_arista`/`desbloquear_arista`: walk the edge list
and set the `bloqueada` flag of the *first* edge whose destination id
matches, in place; `none` when no edge matches. -/
def bloqueaPrimera (idDestino : Nat) (b : Bool) :
    List AristaGrafo → Option (List AristaGrafo)
  | [] => none
  | a :: resto =>
    if a.destino.id = idDestino then some ({ a with bloqueada := b } :: resto)
    else (bloqueaPrimera idDestino b resto).map (a :: ·)

/-- `GrafoTrafico.bloquear_arista`: set the blocked flag of the first
outgoing edge of `idOrigen` whose destination id is `idDestino`; reports
whether one was found. -/
def bloquear_arista (g : GrafoTrafico) (idOrigen idDestino : Nat) :
    Bool × GrafoTrafico :=
  match bloqueaPrimera idDestino true (obtener_aristas_nodo g idOrigen) with
  | none => (false, g)
  | some l' =>
    (true,
      { g with lista_adyacencia :=
          (HashTable.modificaEnSitio pyHashNat g.lista_adyacencia idOrigen
            (fun _ => l')) })

/-- `GrafoTrafico.desbloquear_arista`: clear the blocked flag of the first
matching directed edge. -/
def desbloquear_arista (g : GrafoTrafico) (idOrigen idDestino : Nat) :
    Bool × GrafoTrafico :=
  match bloqueaPrimera idDestino false (obtener_aristas_nodo g idOrigen) with
  | none => (false, g)
  | some l' =>
    (true,
      { g with lista_adyacencia :=
          (HashTable.modificaEnSitio pyHashNat g.lista_adyacencia idOrigen
            (fun _ => l')) })

/-- `GrafoTrafico.obtener_nodos_lista`. -/
def obtener_nodos_lista (g : GrafoTrafico) : List NodoGrafo :=
  HashTable.obtenerValores g.nodos

/-- `GrafoTrafico.obtener_todas_aristas`: the outgoing lists of all node
ids, in key-enumeration order. -/
def obtener_todas_aristas (g : GrafoTrafico) : List AristaGrafo :=
  (HashTable.obtenerClaves g.nodos).flatMap fun idNodo =>
    obtener_aristas_nodo g idNodo

/-- `GrafoTrafico.validar_integridad` (lines 195-206): one diagnostic
string per dangling endpoint reference of any edge. -/
def validar_integridad (g : GrafoTrafico) : List String :=
  (obtener_todas_aristas g).flatMap fun arista =>
    (if HashTable.contiene pyHashNat g.nodos arista.origen.id = false then
      ["Nodo origen " ++ toString arista.origen.id ++ " no existe"]
    else []) ++
    (if HashTable.contiene pyHashNat g.nodos arista.destino.id = false then
      ["Nodo destino " ++ toString arista.destino.id ++ " no existe"]
    else [])

end GrafoTrafico

/-! ## `ColaPrioridad` (estructuras_datos.py, lines 71-127)

A binary min-heap over `(priority, payload)` pairs; payloads here are node
ids.  List reads out of range return a dummy pair (they never occur in the
in-bounds executions the program performs). -/

/-- Heap cell read, `self.heap[i]`. -/
def hget (heap : List (Flt × Nat)) (i : Nat) : Flt × Nat :=
  heap.getD i (Flt.fin 0, 0)

/-- `ColaPrioridad._intercambiar`: swap two heap cells. -/
def intercambiar (heap : List (Flt × Nat)) (i j : Nat) : List (Flt × Nat) :=
  let a := hget heap i
  let b := hget heap j
  (heap.set i b).set j a

/-- `ColaPrioridad._heapify_up`: bubble the cell at `i` up while it is
strictly below its parent (`heap[padre][0] > heap[i][0]`). -/
def heapifyUp (heap : List (Flt × Nat)) (i : Nat) : List (Flt × Nat) :=
  if h : 0 < i ∧ Flt.lt (hget heap i).1 (hget heap ((i - 1) / 2)).1 = true then
    heapifyUp (intercambiar heap i ((i - 1) / 2)) ((i - 1) / 2)
  else heap
termination_by i
decreasing_by omega

/-- `ColaPrioridad._heapify_down`: sink the cell at `i` while it is above
the smaller of its children. -/
def heapifyDown (tam : Nat) (heap : List (Flt × Nat)) (i : Nat) :
    List (Flt × Nat) :=
  if h : 2 * i + 1 < tam then
    let hijoMin :=
      if 2 * i + 2 < tam ∧
          Flt.lt (hget heap (2 * i + 2)).1 (hget heap (2 * i + 1)).1 = true
      then 2 * i + 2 else 2 * i + 1
    if Flt.lt (hget heap hijoMin).1 (hget heap i).1 = true then
      heapifyDown tam (intercambiar heap i hijoMin) hijoMin
    else heap
  else heap
termination_by tam - i
decreasing_by split <;> omega

/-- `ColaPrioridad`: the backing list and the logical size. -/
structure ColaPrioridad : Type where
  heap : List (Flt × Nat)
  tamano : Nat
deriving DecidableEq, Repr

namespace ColaPrioridad

/-- `ColaPrioridad.__init__`. -/
def nueva : ColaPrioridad := ⟨[], 0⟩

/-- `ColaPrioridad.insertar`: append, grow, bubble up from the last slot. -/
def insertar (c : ColaPrioridad) (prioridad : Flt) (elemento : Nat) :
    ColaPrioridad :=
  ⟨heapifyUp (c.heap ++ [(prioridad, elemento)]) c.tamano, c.tamano + 1⟩

/-- `ColaPrioridad.extraer_min`: `None` when empty; for a single element,
pop it; otherwise pop the last element into the root and sink it.  Returns
the extracted pair together with the updated queue. -/
def extraer_min (c : ColaPrioridad) : Option ((Flt × Nat) × ColaPrioridad) :=
  if c.tamano = 0 then none
  else if c.tamano = 1 then
    match c.heap.getLast? with
    | some raiz => some (raiz, ⟨c.heap.dropLast, 0⟩)
    | none => none
  else
    match c.heap.getLast? with
    | some ultimo =>
      let raiz := hget c.heap 0
      some (raiz,
        ⟨heapifyDown (c.tamano - 1) (c.heap.dropLast.set 0 ultimo) 0,
          c.tamano - 1⟩)
    | none => none

/-- `ColaPrioridad.es_vacia`. -/
def es_vacia (c : ColaPrioridad) : Bool := c.tamano = 0

end ColaPrioridad

/-! ## Path engine (algoritmos_dijkstra.py, `AlgoritmoDijkstra`)

The Python class holds the graph; here every method takes it explicitly.
The `while` loops carry explicit fuel (`PyErr.fuelExhausted` on
exhaustion); every genuine Python exception keeps its own error value.

Note the central consequence of the tuple-update bug in
`HashTable.insertar`: after the initialisation loop has filled `distancias`
with one entry per node id, line 39 (`distancias.insertar(id_origen, 0)`)
updates an existing key and therefore raises `TypeError` whenever the
origin id is present in the graph. -/

namespace AlgoritmoDijkstra

/-- Sequential `self.insertar(...)` calls over a list of pairs (the
initialisation loops of both path queries). -/
def insertarCada {V : Type} [DecidableEq V] (t : HashTable Nat V) :
    List (Nat × V) → Except PyErr (HashTable Nat V)
  | [] => .ok t
  | p :: resto =>
    match HashTable.insertar pyHashNat t p.1 p.2 with
    | .error e => .error e
    | .ok t1 => insertarCada t1 resto

/-- `AlgoritmoDijkstra._encontrar_arista`: first outgoing edge of
`idOrigen` whose destination id matches. -/
def encontrar_arista (g : GrafoTrafico) (idOrigen idDestino : Nat) :
    Option AristaGrafo :=
  (g.obtener_aristas_nodo idOrigen).find? fun a => a.destino.id = idDestino

/-- The predecessor-walking loop of `AlgoritmoDijkstra._reconstruir_ruta`,
with fuel (a cyclic predecessor table would make the Python loop run
forever). -/
def reconstruirGo (g : GrafoTrafico) (pred : HashTable Nat (Option Nat)) :
    Nat → Option Nat → List Nat → List AristaGrafo →
    Except PyErr (List Nat × List AristaGrafo)
  | 0, _, _, _ => .error .fuelExhausted
  | _ + 1, none, rutaNodos, rutaAristas => .ok (rutaNodos, rutaAristas)
  | fuel + 1, some nodoActual, rutaNodos, rutaAristas =>
    let rutaNodos1 := rutaNodos ++ [nodoActual]
    let predecesor : Option Nat :=
      (HashTable.obtener pyHashNat pred nodoActual).getD none
    let rutaAristas1 :=
      match predecesor with
      | some p =>
        match encontrar_arista g p nodoActual with
        | some arista => rutaAristas ++ [arista]
        | none => rutaAristas
      | none => rutaAristas
    reconstruirGo g pred fuel predecesor rutaNodos1 rutaAristas1

/-- `AlgoritmoDijkstra._reconstruir_ruta`: walk the predecessor links from
the destination, collecting nodes and connecting edges, then reverse. -/
def reconstruir_ruta (g : GrafoTrafico) (pred : HashTable Nat (Option Nat))
    (idDestino : Nat) (fuel : Nat) :
    Except PyErr (List Nat × List AristaGrafo) :=
  match reconstruirGo g pred fuel (some idDestino) [] [] with
  | .error e => .error e
  | .ok (rutaNodos, rutaAristas) => .ok (rutaNodos.reverse, rutaAristas.reverse)

/-- The neighbour-relaxation loop body: for each `(neighbour, weight)` pair
skip visited ids, compare `distancia_actual + peso` against the stored
distance (`TypeError` if the stored value is `None`), and on improvement
update distance and predecessor (both are key updates, hence `TypeError`)
and push onto the queue. -/
def relajaVecinos (distanciaActual : Flt) (nodoActual : Nat) :
    List (NodoGrafo × ℚ) → HashTable Nat Bool → HashTable Nat Flt →
    HashTable Nat (Option Nat) → ColaPrioridad →
    Except PyErr (HashTable Nat Flt × HashTable Nat (Option Nat) × ColaPrioridad)
  | [], _, dist, pred, cola => .ok (dist, pred, cola)
  | (nodoVecino, pesoArista) :: resto, vis, dist, pred, cola =>
    let idVecino := nodoVecino.id
    if (HashTable.obtener pyHashNat vis idVecino).getD false then
      relajaVecinos distanciaActual nodoActual resto vis dist pred cola
    else
      let nuevaDistancia := Flt.add distanciaActual (Flt.fin pesoArista)
      match HashTable.obtener pyHashNat dist idVecino with
      | none => .error .typeError
      | some distVecino =>
        if Flt.lt nuevaDistancia distVecino then
          match HashTable.insertar pyHashNat dist idVecino nuevaDistancia with
          | .error e => .error e
          | .ok dist1 =>
            match HashTable.insertar pyHashNat pred idVecino
                (some nodoActual) with
            | .error e => .error e
            | .ok pred1 =>
              relajaVecinos distanciaActual nodoActual resto vis dist1 pred1
                (cola.insertar nuevaDistancia idVecino)
        else relajaVecinos distanciaActual nodoActual resto vis dist pred cola

/-- The main `while not cola_prioridad.es_vacia()` loop shared by both path
queries, with fuel. -/
def dijkstraLoop (g : GrafoTrafico) (paraDestino : Option Nat) :
    Nat → ColaPrioridad → HashTable Nat Flt → HashTable Nat (Option Nat) →
    HashTable Nat Bool →
    Except PyErr (HashTable Nat Flt × HashTable Nat (Option Nat) × HashTable Nat Bool)
  | 0, _, _, _, _ => .error .fuelExhausted
  | fuel + 1, cola, dist, pred, vis =>
    if cola.es_vacia then .ok (dist, pred, vis)
    else
      match cola.extraer_min with
      | none => .error .typeError
      | some ((distanciaActual, nodoActual), cola1) =>
        if (HashTable.obtener pyHashNat vis nodoActual).getD false then
          dijkstraLoop g paraDestino fuel cola1 dist pred vis
        else
          match HashTable.insertar pyHashNat vis nodoActual true with
          | .error e => .error e
          | .ok vis1 =>
            if paraDestino = some nodoActual then .ok (dist, pred, vis1)
            else
              match relajaVecinos distanciaActual nodoActual
                  (g.obtener_vecinos nodoActual) vis1 dist pred cola1 with
              | .error e => .error e
              | .ok (dist1, pred1, cola2) =>
                dijkstraLoop g paraDestino fuel cola2 dist1 pred1 vis1

/-- Generous fuel for the loops of one query on graph `g`. -/
def fuelDe (g : GrafoTrafico) : Nat :=
  (HashTable.obtenerClaves g.nodos).length +
    (GrafoTrafico.obtener_todas_aristas g).length + 2

/-- `AlgoritmoDijkstra.encontrar_ruta_mas_corta` (lines 16-82): `None` and
empty sequences when either endpoint id is absent; otherwise initialise the
distance/predecessor/visited tables over all node ids, *update* the
origin's distance to `0` (the `TypeError` point), run the loop with early
exit at the destination, reconstruct, and map an infinite distance to the
"no path" result. -/
def encontrar_ruta_mas_corta (g : GrafoTrafico) (idOrigen idDestino : Nat) :
    Except PyErr (Option Flt × List Nat × List AristaGrafo) :=
  if HashTable.contiene pyHashNat g.nodos idOrigen = false ∨
      HashTable.contiene pyHashNat g.nodos idDestino = false then
    .ok (none, [], [])
  else do
    let claves := HashTable.obtenerClaves g.nodos
    let distancias ← insertarCada (HashTable.vacia 16)
      (claves.map fun idNodo => (idNodo, Flt.inf))
    let predecesores ← insertarCada (HashTable.vacia 16)
      (claves.map fun idNodo => (idNodo, (none : Option Nat)))
    let visitados ← insertarCada (HashTable.vacia 16)
      (claves.map fun idNodo => (idNodo, false))
    let distancias ← HashTable.insertar pyHashNat distancias idOrigen
      (Flt.fin 0)
    let cola := ColaPrioridad.nueva.insertar (Flt.fin 0) idOrigen
    let (distancias, predecesores, _) ←
      dijkstraLoop g (some idDestino) (fuelDe g * fuelDe g) cola distancias
        predecesores visitados
    let (rutaNodos, rutaAristas) ←
      reconstruir_ruta g predecesores idDestino (fuelDe g)
    let distanciaTotal := HashTable.obtener pyHashNat distancias idDestino
    if distanciaTotal = some Flt.inf then
      .ok (none, [], [])
    else
      .ok (distanciaTotal, rutaNodos, rutaAristas)

/-- One entry of the result mapping of `encontrar_rutas_multiples`. -/
structure RutaMultiple : Type where
  distancia : Option Flt
  ruta_nodos : List Nat
  ruta_aristas : List AristaGrafo
deriving DecidableEq, Repr

/-- Python `dict` assignment `rutas[id_destino] = ...`: overwrite an
existing entry, else append. -/
def dictPon {β : Type} (l : List (Nat × β)) (k : Nat) (v : β) :
    List (Nat × β) :=
  if l.any (·.1 = k) then
    l.map fun p => if p.1 = k then (k, v) else p
  else l ++ [(k, v)]

/-- The per-destination reconstruction loop of
`encontrar_rutas_multiples`: destinations whose recorded distance is
`float('inf')` are skipped (an *absent* destination compares `None !=
inf`, which is true, and is reconstructed). -/
def reconstruyeDestinos (g : GrafoTrafico) (dist : HashTable Nat Flt)
    (pred : HashTable Nat (Option Nat)) (fuel : Nat) :
    List Nat → List (Nat × RutaMultiple) →
    Except PyErr (List (Nat × RutaMultiple))
  | [], rutas => .ok rutas
  | idDestino :: resto, rutas =>
    if HashTable.obtener pyHashNat dist idDestino = some Flt.inf then
      reconstruyeDestinos g dist pred fuel resto rutas
    else
      match reconstruir_ruta g pred idDestino fuel with
      | .error e => .error e
      | .ok (rutaNodos, rutaAristas) =>
        reconstruyeDestinos g dist pred fuel resto
          (dictPon rutas idDestino
            ⟨HashTable.obtener pyHashNat dist idDestino, rutaNodos,
              rutaAristas⟩)

/-- `AlgoritmoDijkstra.encontrar_rutas_multiples` (lines 117-173): one
single-source relaxation (no early exit, no endpoint guard), then a path
reconstruction per requested destination whose distance is not infinite.
The same `TypeError` update of the origin's distance occurs whenever the
origin id is present in the graph. -/
def encontrar_rutas_multiples (g : GrafoTrafico) (idOrigen : Nat)
    (destinos : List Nat) : Except PyErr (List (Nat × RutaMultiple)) := do
  let claves := HashTable.obtenerClaves g.nodos
  let distancias ← insertarCada (HashTable.vacia 16)
    (claves.map fun idNodo => (idNodo, Flt.inf))
  let predecesores ← insertarCada (HashTable.vacia 16)
    (claves.map fun idNodo => (idNodo, (none : Option Nat)))
  let visitados ← insertarCada (HashTable.vacia 16)
    (claves.map fun idNodo => (idNodo, false))
  let distancias ← HashTable.insertar pyHashNat distancias idOrigen
    (Flt.fin 0)
  let cola := ColaPrioridad.nueva.insertar (Flt.fin 0) idOrigen
  let (distancias, predecesores, _) ←
    dijkstraLoop g none (fuelDe g * fuelDe g) cola distancias predecesores
      visitados
  reconstruyeDestinos g distancias predecesores (fuelDe g) destinos []

end AlgoritmoDijkstra

/-! ## Traffic analyzer (algoritmos_dijkstra.py, `AnalizadorTrafico`)

Only `_identificar_cuellos_botella` is needed by the claims.  The Python
routine iterates over the edge *objects* of the graph and mutates their
`bloqueada` flag in place; edge identities are modelled as
`(node id, position in its adjacency list)` pairs.  The iteration list is
materialised once before the loop, as in Python. -/

namespace AnalizadorTrafico

/-- The edge identities of `obtener_todas_aristas`, in enumeration order. -/
def enumeraAristas (g : GrafoTrafico) : List (Nat × Nat) :=
  (HashTable.obtenerClaves g.nodos).flatMap fun idNodo =>
    (List.range (g.obtener_aristas_nodo idNodo).length).map fun j =>
      (idNodo, j)

/-- Read the current record of the edge at an identity. -/
def leeArista (g : GrafoTrafico) (idNodo j : Nat) : Option AristaGrafo :=
  (g.obtener_aristas_nodo idNodo)[j]?

/-- `arista.bloqueada = b` on the edge object at an identity. -/
def ponBloqueada (g : GrafoTrafico) (idNodo j : Nat) (b : Bool) :
    GrafoTrafico :=
  { g with lista_adyacencia :=
      (HashTable.modificaEnSitio pyHashNat g.lista_adyacencia idNodo
        (fun l => GrafoTrafico.setBloqueadaEn l j b)) }

/-- The loop of `AnalizadorTrafico._identificar_cuellos_botella`
(lines 255-279): save the blocked flag, force it, query the shortest path
between the edge's endpoints, restore the flag, and classify.  The
restoration is a *manual* save/restore pair: when the path query raises,
the exception propagates with the edge still blocked.  The final graph
state is returned alongside the outcome. -/
def cuellosGo :
    List (Nat × Nat) → GrafoTrafico → List AristaGrafo →
    (Except PyErr (List AristaGrafo)) × GrafoTrafico
  | [], g, acc => (.ok acc, g)
  | (idNodo, j) :: resto, g, acc =>
    match leeArista g idNodo j with
    | none => cuellosGo resto g acc
    | some arista =>
      let estabaBloqueada := arista.bloqueada
      let g1 := ponBloqueada g idNodo j true
      match AlgoritmoDijkstra.encontrar_ruta_mas_corta g1 arista.origen.id
          arista.destino.id with
      | .error e => (.error e, g1)
      | .ok (distanciaSinArista, _, _) =>
        let g2 := ponBloqueada g1 idNodo j estabaBloqueada
        let distanciaConArista := arista.peso_actual
        let esCuello :=
          match distanciaSinArista with
          | none => true
          | some d => Flt.lt (Flt.fin (distanciaConArista * 2)) d
        cuellosGo resto g2 (if esCuello then acc ++ [arista] else acc)

/-- `AnalizadorTrafico._identificar_cuellos_botella`: run the probe loop
over every edge and keep the first five hits.  Returns the outcome together
with the graph state left behind. -/
def identificar_cuellos_botella (g : GrafoTrafico) :
    (Except PyErr (List AristaGrafo)) × GrafoTrafico :=
  match cuellosGo (enumeraAristas g) g [] with
  | (.ok acc, g') => (.ok (acc.take 5), g')
  | r => r

end AnalizadorTrafico

/-! ## Vehicles (vehiculos_simulacion.py)

Only the pieces the claims touch are embedded: the vehicle record, route
installation, and `GestorVehiculos.crear_vehiculo`.  The random draws of
the Python constructor (`velocidad`, `color`, `tipo`) are taken as
parameters; nothing below depends on them. -/

/-- `Vehiculo` (vehiculos_simulacion.py, lines 11-31). -/
structure Vehiculo : Type where
  id : Nat
  nodo_origen : NodoGrafo
  nodo_destino : NodoGrafo
  posicion_x : ℚ
  posicion_y : ℚ
  velocidad : ℚ
  estado : String
  ruta_nodos : List Nat
  ruta_aristas : List AristaGrafo
  indice_ruta_actual : Nat
  progreso_arista : ℚ
  tiempo_espera : ℚ
  distancia_total : Option Flt
  tiempo_viaje : ℚ
  color : Nat × Nat × Nat
  tipo : String
  prioridad : Nat
deriving DecidableEq, Repr

/-- `Vehiculo.__init__`: spawns at the origin's coordinate in state
`planificando` with an empty route (`distancia_total` starts as the number
`0`). -/
def Vehiculo.nuevo (idVehiculo : Nat) (nodoOrigen nodoDestino : NodoGrafo)
    (velocidad : ℚ) (color : Nat × Nat × Nat) (tipo : String) : Vehiculo :=
  ⟨idVehiculo, nodoOrigen, nodoDestino, nodoOrigen.x, nodoOrigen.y,
    velocidad, "planificando", [], [], 0, 0, 0, some (Flt.fin 0), 0, color,
    tipo, 1⟩

/-- `Vehiculo.establecer_ruta`: install the route; `viajando` if the node
sequence is non-empty, else `bloqueado`. -/
def Vehiculo.establecer_ruta (v : Vehiculo) (rutaNodos : List Nat)
    (rutaAristas : List AristaGrafo) (distanciaTotal : Option Flt) :
    Vehiculo :=
  { v with
    ruta_nodos := rutaNodos,
    ruta_aristas := rutaAristas,
    distancia_total := distanciaTotal,
    indice_ruta_actual := 0,
    progreso_arista := 0,
    estado := if rutaNodos ≠ [] then "viajando" else "bloqueado" }

/-- `arista.agregar_vehiculo()` called on a route edge object: the route
edges produced by `_encontrar_arista` are the *first* matching records of
their origin's adjacency list, so the in-place load increment lands on that
record. -/
def incrementaCargaPrimera (g : GrafoTrafico) (idOrigen idDestino : Nat) :
    GrafoTrafico :=
  match (g.obtener_aristas_nodo idOrigen).findIdx?
      (fun a => a.destino.id = idDestino) with
  | none => g
  | some j =>
    { g with lista_adyacencia :=
        (HashTable.modificaEnSitio pyHashNat g.lista_adyacencia idOrigen
          (fun l =>
            match l[j]? with
            | some a => l.set j a.agregar_vehiculo
            | none => l)) }

/-- `GestorVehiculos` (lines 140-155), restricted to the state
`crear_vehiculo` touches. -/
structure GestorVehiculos : Type where
  vehiculos : HashTable Nat Vehiculo
  contador_vehiculos : Nat
  vehiculos_activos : List Vehiculo
  vehiculos_completados : List Vehiculo
  total_creados : Nat
  total_completados : Nat
  tiempo_promedio_viaje : ℚ
  vehiculos_bloqueados : Nat
deriving DecidableEq, Repr

namespace GestorVehiculos

/-- `GestorVehiculos.__init__`. -/
def nuevo : GestorVehiculos :=
  ⟨HashTable.vacia 16, 0, [], [], 0, 0, 0, 0⟩

/-- `GestorVehiculos.crear_vehiculo` (lines 172-202): `None` when either
endpoint is missing; otherwise allocate the next id, build the vehicle,
query the path engine (whose `TypeError` propagates), install the route —
registering +1 load on the first route edge — or mark the vehicle
`bloqueado`, and register it. -/
def crear_vehiculo (gest : GestorVehiculos) (g : GrafoTrafico)
    (idOrigen idDestino : Nat) (velocidad : ℚ) (color : Nat × Nat × Nat)
    (tipo : String) :
    Except PyErr (Option Vehiculo × GestorVehiculos × GrafoTrafico) :=
  match HashTable.obtener pyHashNat g.nodos idOrigen,
      HashTable.obtener pyHashNat g.nodos idDestino with
  | some nodoOrigen, some nodoDestino =>
    let contador := gest.contador_vehiculos + 1
    let vehiculo := Vehiculo.nuevo contador nodoOrigen nodoDestino velocidad
      color tipo
    match AlgoritmoDijkstra.encontrar_ruta_mas_corta g idOrigen idDestino with
    | .error e => .error e
    | .ok (distancia, rutaNodos, rutaAristas) =>
      let conRuta := decide (rutaNodos ≠ [])
      let vehiculo1 :=
        if conRuta then
          vehiculo.establecer_ruta rutaNodos rutaAristas distancia
        else { vehiculo with estado := "bloqueado" }
      let g1 :=
        if conRuta then
          match rutaAristas with
          | [] => g
          | a0 :: _ => incrementaCargaPrimera g a0.origen.id a0.destino.id
        else g
      let bloqueados :=
        if conRuta then gest.vehiculos_bloqueados
        else gest.vehiculos_bloqueados + 1
      match HashTable.insertar pyHashNat gest.vehiculos vehiculo1.id
          vehiculo1 with
      | .error e => .error e
      | .ok vehiculos1 =>
        .ok (some vehiculo1,
          { gest with
            vehiculos := vehiculos1,
            contador_vehiculos := contador,
            vehiculos_activos :=
              ListaEnlazada.agregar gest.vehiculos_activos vehiculo1,
            total_creados := gest.total_creados + 1,
            vehiculos_bloqueados := bloqueados }, g1)
  | _, _ => .ok (none, gest, g)

end GestorVehiculos


/-! ## Derived definitions used by the claims -/

deriving instance DecidableEq for Except

namespace HashTable

/-- What a Python caller observes from `obtener` on a table whose stored
values may themselves be `None` (modelled as `Option β` values): the stored
`None` and an absent key produce the same observable `None`. -/
def obtenerOpt {κ β : Type} [DecidableEq κ] [DecidableEq β] (hf : κ → Nat)
    (t : HashTable κ (Option β)) (k : κ) : Option β :=
  (obtener hf t k).getD none

/-- `contiene` as observed on a table storing `Option β` values:
`self.obtener(clave) is not None`. -/
def contieneOpt {κ β : Type} [DecidableEq κ] [DecidableEq β] (hf : κ → Nat)
    (t : HashTable κ (Option β)) (k : κ) : Bool :=
  (obtenerOpt hf t k).isSome

end HashTable

/-- The dynamic-weight equation of the specification:
`current_weight = base_weight * (1 + 2 * load / max(capacity, 1))`. -/
def AristaGrafo.ecuacionPeso (a : AristaGrafo) : Prop :=
  a.peso_actual =
    a.peso_base *
      (1 + 2 * (a.carga_trafico : ℚ) / ((max a.capacidad_maxima 1 : Nat) : ℚ))

instance (a : AristaGrafo) : Decidable a.ecuacionPeso := by
  unfold AristaGrafo.ecuacionPeso; infer_instance

/-- Structural well-formedness of a graph state, maintained by every
graph operation: both tables are well-formed with duplicate-free keys, and
every stored edge's origin id is the adjacency key it is filed under while
its destination id refers to a stored node. -/
def GrafoTrafico.bienFormado (g : GrafoTrafico) : Prop :=
  HashTable.WF pyHashNat g.nodos ∧
  (HashTable.obtenerClaves g.nodos).Nodup ∧
  HashTable.WF pyHashNat g.lista_adyacencia ∧
  (HashTable.obtenerClaves g.lista_adyacencia).Nodup ∧
  ∀ par ∈ g.lista_adyacencia.buckets.flatten, ∀ a ∈ par.2,
    a.origen.id = par.1 ∧
      HashTable.contiene pyHashNat g.nodos a.destino.id = true

instance (g : GrafoTrafico) : Decidable g.bienFormado := by
  unfold GrafoTrafico.bienFormado; infer_instance

/-! ### Concrete program states used by the claims

`grafoABC` is the scenario of the specification: nodes A(0,0), B(100,0),
C(100,100) with edges A→B and B→C requested at weight 1 and A→C at weight
10, all with `bidireccional=False`.  (Since `agregar_arista` replaces a
weight equal to 1 by the Euclidean distance divided by 50, the stored
weights of A→B and B→C are in fact 2.) -/

/-- Build the specification's three-node scenario graph through the
program's own operations. -/
def construyeGrafoABC : Except PyErr GrafoTrafico := do
  let (_, g1) ← GrafoTrafico.nuevo.agregar_nodo 0 0 "A"
  let (_, g2) ← g1.agregar_nodo 100 0 "B"
  let (_, g3) ← g2.agregar_nodo 100 100 "C"
  let (_, g4) ← g3.agregar_arista 1 2 1 false
  let (_, g5) ← g4.agregar_arista 2 3 1 false
  let (_, g6) ← g5.agregar_arista 1 3 10 false
  .ok g6

/-- The scenario graph itself. -/
def grafoABC : GrafoTrafico :=
  match construyeGrafoABC with
  | .ok g => g
  | .error _ => GrafoTrafico.nuevo

/-- Two nodes joined by the single directed edge 1→2 of weight 5. -/
def construyeGrafoDos : Except PyErr GrafoTrafico := do
  let (_, g1) ← GrafoTrafico.nuevo.agregar_nodo 0 0 ""
  let (_, g2) ← g1.agregar_nodo 100 0 ""
  let (_, g3) ← g2.agregar_arista 1 2 5 false
  .ok g3

/-- The two-node, one-edge graph. -/
def grafoDos : GrafoTrafico :=
  match construyeGrafoDos with
  | .ok g => g
  | .error _ => GrafoTrafico.nuevo

/-- The two-node graph with its only edge already blocked. -/
def grafoDosBloqueado : GrafoTrafico := (grafoDos.bloquear_arista 1 2).2

/-- Two isolated nodes: node 2 is present but unreachable from node 1. -/
def construyeGrafoAislado : Except PyErr GrafoTrafico := do
  let (_, g1) ← GrafoTrafico.nuevo.agregar_nodo 0 0 ""
  let (_, g2) ← g1.agregar_nodo 100 0 ""
  .ok g2

/-- The graph with two isolated nodes. -/
def grafoAislado : GrafoTrafico :=
  match construyeGrafoAislado with
  | .ok g => g
  | .error _ => GrafoTrafico.nuevo

/-- A fresh table holding the single binding `1 ↦ 37`. -/
def tablaUno : HashTable Nat ℚ :=
  match HashTable.insertar pyHashNat (HashTable.vacia 16) 1 37 with
  | .ok t => t
  | .error _ => HashTable.vacia 16

/-- A fresh `Option`-valued table after `insertar(1, None)`. -/
def tablaNone : HashTable Nat (Option ℚ) :=
  match HashTable.insertar pyHashNat (HashTable.vacia 16) 1
      (none : Option ℚ) with
  | .ok t => t
  | .error _ => HashTable.vacia 16

/-- A fresh directed edge of weight 5 between two nodes (load 0, not
blocked). -/
def aristaC5 : AristaGrafo :=
  AristaGrafo.nueva (NodoGrafo.nuevo 1 0 0 "") (NodoGrafo.nuevo 2 100 0 "")
    5 false

/-- The same edge after `bloqueada = True`, `agregar_vehiculo()`,
`bloqueada = False` — a load change applied while blocked. -/
def aristaC5tras : AristaGrafo :=
  { AristaGrafo.agregar_vehiculo { aristaC5 with bloqueada := true } with
    bloqueada := false }

/-- The edge record stored in `grafoDos` for the directed edge 1→2. -/
def aristaDos : AristaGrafo :=
  AristaGrafo.nueva (NodoGrafo.nuevo 1 0 0 "") (NodoGrafo.nuevo 2 100 0 "")
    5 false

/-! ## Proof layer: specifications of the container operations -/

/-! ### Auxiliary list lemmas for the hash-table proofs -/

lemma getD_set_self {α : Type} (l : List α) (i : Nat) (a d : α)
    (h : i < l.length) : (l.set i a).getD i d = a := by
  rw [List.getD_eq_getElem?_getD, List.getElem?_set_self h]
  rfl

lemma getD_set_ne {α : Type} (l : List α) {i j : Nat} (a d : α)
    (h : i ≠ j) : (l.set i a).getD j d = l.getD j d := by
  rw [List.getD_eq_getElem?_getD, List.getElem?_set_ne h,
    ← List.getD_eq_getElem?_getD]

lemma flatten_length_set {α : Type} :
    ∀ (l : List (List α)) (i : Nat) (x : List α), i < l.length →
      ((l.set i x).flatten.length + (l.getD i []).length =
        l.flatten.length + x.length)
  | [], i, x, h => absurd h (by simp)
  | b :: bs, 0, x, _ => by
    simp [List.flatten_cons]; omega
  | b :: bs, i + 1, x, h => by
    have ih := flatten_length_set bs i x (by simpa using h)
    simp only [List.set_cons_succ, List.flatten_cons, List.length_append,
      List.getD_cons_succ]
    omega

lemma find?_flatten_unique {α : Type} (P : α → Bool) :
    ∀ (bs : List (List α)) (i : Nat), i < bs.length →
      (∀ j < bs.length, j ≠ i → ∀ x ∈ bs.getD j [], P x = false) →
      bs.flatten.find? P = (bs.getD i []).find? P
  | [], i, h, _ => absurd h (by simp)
  | b :: bs, 0, _, hother => by
    rw [List.flatten_cons, List.find?_append, List.getD_cons_zero]
    cases hfb : b.find? P with
    | some a => simp
    | none =>
      have : bs.flatten.find? P = none := by
        rw [List.find?_eq_none]
        intro x hx
        rcases List.mem_flatten.1 hx with ⟨l, hl, hxl⟩
        rcases List.getElem_of_mem hl with ⟨j, hj, rfl⟩
        have := hother (j + 1) (by simpa using Nat.succ_lt_succ hj)
          (Nat.succ_ne_zero j) x
          (by
            rw [List.getD_cons_succ, List.getD_eq_getElem?_getD,
              List.getElem?_eq_getElem hj]
            exact hxl)
        simp [this]
      simp [this]
  | b :: bs, i + 1, h, hother => by
    have hb : b.find? P = none := by
      rw [List.find?_eq_none]
      intro x hx
      have := hother 0 (by simp) (Nat.succ_ne_zero i).symm x
        (by simpa using hx)
      simp [this]
    have ih := find?_flatten_unique P bs i (by simpa using h)
      (fun j hj hji x hx => hother (j + 1) (by simpa using Nat.succ_lt_succ hj)
        (by omega) x (by simpa [List.getD_cons_succ] using hx))
    rw [List.flatten_cons, List.find?_append, hb, Option.none_or,
      List.getD_cons_succ, ih]


/-! ### Specification of the hash-table operations on well-formed tables -/

namespace HashTable

variable {κ V : Type} [DecidableEq κ] [DecidableEq V] {hf : κ → Nat}

lemma indice_lt {t : HashTable κ V} (hWF : WF hf t) (k : κ) :
    indice hf t k < t.buckets.length := by
  rw [hWF.2.1]
  exact Nat.mod_lt _ hWF.1

lemma obtener_eq_none_of_tieneClave_false {t : HashTable κ V} {k : κ}
    (h : tieneClave hf t k = false) : obtener hf t k = none := by
  unfold tieneClave at h
  unfold obtener
  rw [List.find?_eq_none.2 (List.any_eq_false.mp h)]
  rfl

lemma tieneClave_false_of_obtener_eq_none {t : HashTable κ V} {k : κ}
    (h : obtener hf t k = none) : tieneClave hf t k = false := by
  unfold obtener at h
  have hfind : (bucketDe hf t k).find? (fun par => decide (par.1 = k)) = none := by
    cases hfind2 : (bucketDe hf t k).find? fun par => decide (par.1 = k) with
    | none => rfl
    | some a => rw [hfind2] at h; exact absurd h (by simp)
  unfold tieneClave
  rw [List.any_eq_false]
  exact List.find?_eq_none.mp hfind

lemma bucketDe_agregaPar {t : HashTable κ V} (hWF : WF hf t) (k : κ) (v : V)
    (k' : κ) :
    bucketDe hf (agregaPar hf t k v) k' =
      if indice hf t k' = indice hf t k
      then bucketDe hf t k ++ [(k, v)] else bucketDe hf t k' := by
  have hlt := indice_lt hWF k
  unfold bucketDe agregaPar ListaEnlazada.agregar indice
  simp only []
  split
  · next h =>
    rw [show hf k' % t.capacidad = hf k % t.capacidad from h]
    exact getD_set_self _ _ _ _ hlt
  · next h =>
    exact getD_set_ne _ _ _ fun hcontra => h hcontra.symm

lemma obtener_agregaPar_self {t : HashTable κ V} (hWF : WF hf t) {k : κ}
    (htc : tieneClave hf t k = false) (v : V) :
    obtener hf (agregaPar hf t k v) k = some v := by
  unfold obtener
  rw [bucketDe_agregaPar hWF k v k, if_pos rfl, List.find?_append,
    List.find?_eq_none.2 (List.any_eq_false.mp htc), Option.none_or]
  simp

lemma obtener_agregaPar_ne {t : HashTable κ V} (hWF : WF hf t) (k : κ) (v : V)
    {k' : κ} (hne : k' ≠ k) :
    obtener hf (agregaPar hf t k v) k' = obtener hf t k' := by
  unfold obtener
  rw [bucketDe_agregaPar hWF k v k']
  split
  · next hidx =>
    rw [List.find?_append]
    have h2 : [(k, v)].find? (fun par => decide (par.1 = k')) = none := by
      simp [Ne.symm hne]
    rw [h2, Option.or_none]
    unfold bucketDe
    rw [hidx]
  · rfl

lemma WF_agregaPar {t : HashTable κ V} (hWF : WF hf t) (k : κ) (v : V) :
    WF hf (agregaPar hf t k v) := by
  obtain ⟨hcap, hlen, htam, hplace⟩ := hWF
  have hlt : indice hf t k < t.buckets.length := by
    rw [hlen]; exact Nat.mod_lt _ hcap
  refine ⟨hcap, by simp [agregaPar, hlen], ?_, ?_⟩
  · have hb := flatten_length_set t.buckets (indice hf t k)
      (ListaEnlazada.agregar (bucketDe hf t k) (k, v)) hlt
    simp only [ListaEnlazada.agregar, bucketDe, List.length_append,
      List.length_singleton] at hb
    simp only [agregaPar, ListaEnlazada.agregar, bucketDe]
    omega
  · intro i hi p hp
    simp only [agregaPar, List.length_set] at hi
    by_cases hcase : i = indice hf t k
    · subst hcase
      simp only [agregaPar] at hp
      rw [getD_set_self _ _ _ _ hlt] at hp
      rcases List.mem_append.1 hp with hold | hnew
      · exact hplace _ hlt p hold
      · have : p = (k, v) := by simpa [ListaEnlazada.agregar] using hnew
        subst this
        rfl
    · simp only [agregaPar] at hp
      rw [getD_set_ne _ _ _ fun h => hcase h.symm] at hp
      exact hplace i hi p hp

lemma obtener_mkVacia (c : Nat) (k : κ) :
    obtener hf (⟨c, 0, List.replicate c []⟩ : HashTable κ V) k = none := by
  unfold obtener bucketDe
  have hb : (List.replicate c ([] : List (κ × V))).getD
      (indice hf (⟨c, 0, List.replicate c []⟩ : HashTable κ V) k) [] = [] := by
    rw [List.getD_eq_getElem?_getD, List.getElem?_replicate]
    split <;> rfl
  rw [hb]
  rfl

lemma WF_mkVacia {c : Nat} (hc : 0 < c) :
    WF hf (⟨c, 0, List.replicate c []⟩ : HashTable κ V) := by
  refine ⟨hc, by simp, by simp, ?_⟩
  intro i hi p hp
  rw [List.getD_eq_getElem?_getD, List.getElem?_replicate] at hp
  split at hp <;> simp_all

lemma obtener_eq_flatten {t : HashTable κ V} (hWF : WF hf t) (k : κ) :
    obtener hf t k =
      (t.buckets.flatten.find? fun par => par.1 = k).map (·.2) := by
  obtain ⟨hcap, hlen, htam, hplace⟩ := hWF
  unfold obtener bucketDe
  congr 1
  rw [find?_flatten_unique _ t.buckets (indice hf t k)
    (by rw [hlen]; exact Nat.mod_lt _ hcap)]
  intro j hj hji x hx
  simp only [decide_eq_false_iff_not]
  intro hxk
  apply hji
  rw [← hplace j hj x hx, hxk]
  rfl

lemma insertaTodosF_spec
    (paso : HashTable κ V → κ → V → Except PyErr (HashTable κ V))
    (IH : ∀ (t : HashTable κ V) (k : κ) (v : V) (t' : HashTable κ V),
      WF hf t → paso t k v = .ok t' →
      obtener hf t k = none ∧ WF hf t' ∧ t'.tamano = t.tamano + 1 ∧
        obtener hf t' k = some v ∧
        ∀ k', k' ≠ k → obtener hf t' k' = obtener hf t k') :
    ∀ (L : List (κ × V)) (acc t' : HashTable κ V), WF hf acc →
      insertaTodosF paso L acc = .ok t' →
      WF hf t' ∧ t'.tamano = acc.tamano + L.length ∧
        ∀ k', obtener hf t' k' =
          (obtener hf acc k').or ((L.find? fun par => par.1 = k').map (·.2))
  | [], acc, t', hacc, heq => by
    rw [insertaTodosF] at heq
    cases heq
    exact ⟨hacc, by simp, fun k' => by simp⟩
  | par :: resto, acc, t', hacc, heq => by
    rw [insertaTodosF] at heq
    split at heq
    · exact absurd heq (by simp)
    · next acc1 hstep =>
      obtain ⟨hnone, hWF1, htam1, hself, hframe⟩ :=
        IH acc par.1 par.2 acc1 hacc hstep
      obtain ⟨hWF', htam', hlook⟩ :=
        insertaTodosF_spec paso IH resto acc1 t' hWF1 heq
      refine ⟨hWF', by simp only [List.length_cons]; omega, ?_⟩
      intro k'
      rw [hlook k']
      by_cases hk : k' = par.1
      · subst hk
        rw [hself, hnone, List.find?_cons]
        simp
      · rw [hframe k' hk, List.find?_cons]
        have hd : (decide (par.1 = k')) = false := by
          simp only [decide_eq_false_iff_not]
          exact fun h => hk h.symm
        rw [hd]

theorem insertarGo_spec :
    ∀ (fuel : Nat) (t : HashTable κ V) (k : κ) (v : V) (t' : HashTable κ V),
      WF hf t → insertarGo hf fuel t k v = .ok t' →
      obtener hf t k = none ∧ WF hf t' ∧ t'.tamano = t.tamano + 1 ∧
        obtener hf t' k = some v ∧
        ∀ k', k' ≠ k → obtener hf t' k' = obtener hf t k'
  | 0, t, k, v, t', _, heq => by
    simp only [insertarGo] at heq
    exact absurd heq (by simp)
  | fuel + 1, t, k, v, t', hWF, heq => by
    simp only [insertarGo] at heq
    by_cases htiene : tieneClave hf t k
    · rw [if_pos htiene] at heq; exact absurd heq (by simp)
    · rw [if_neg htiene] at heq
      have htc : tieneClave hf t k = false := by simpa using htiene
      have hnone : obtener hf t k = none := obtener_eq_none_of_tieneClave_false htc
      have hWF1 := WF_agregaPar hWF k v
      have hself := obtener_agregaPar_self hWF htc v
      have hframe1 := fun (k' : κ) (hk : k' ≠ k) => obtener_agregaPar_ne hWF k v hk
      by_cases hresize :
          4 * (agregaPar hf t k v).tamano ≥ 3 * (agregaPar hf t k v).capacidad
      · rw [if_pos hresize] at heq
        have hWFe : WF hf (⟨(agregaPar hf t k v).capacidad * 2, 0,
            List.replicate ((agregaPar hf t k v).capacidad * 2) []⟩ :
              HashTable κ V) :=
          WF_mkVacia (by have h1 := hWF.1; show 0 < t.capacidad * 2; omega)
        obtain ⟨hWF', htam', hlook⟩ :=
          insertaTodosF_spec (fun t1 k1 v1 => insertarGo hf fuel t1 k1 v1)
            (fun t1 k1 v1 t1' h1 h2 => insertarGo_spec fuel t1 k1 v1 t1' h1 h2)
            _ _ t' hWFe heq
        refine ⟨hnone, hWF', ?_, ?_, ?_⟩
        · have hflat := hWF1.2.2.1
          have hstep : (agregaPar hf t k v).tamano = t.tamano + 1 := rfl
          simp only [hstep] at hflat
          dsimp only at htam'
          omega
        · rw [hlook k, obtener_mkVacia, Option.none_or,
            ← obtener_eq_flatten hWF1 k, hself]
        · intro k' hk
          rw [hlook k', obtener_mkVacia, Option.none_or,
            ← obtener_eq_flatten hWF1 k', hframe1 k' hk]
      · rw [if_neg hresize] at heq
        cases heq
        exact ⟨hnone, hWF1, rfl, hself, hframe1⟩

/-- Specification of `HashTable.insertar` on a well-formed table when the
call returns normally: the key was previously absent, the result is
well-formed, the size grew by one, the key now maps to the inserted value
and every other key is untouched. -/
theorem insertar_spec {t : HashTable κ V} {k : κ} {v : V}
    {t' : HashTable κ V} (hWF : WF hf t) (heq : insertar hf t k v = .ok t') :
    obtener hf t k = none ∧ WF hf t' ∧ t'.tamano = t.tamano + 1 ∧
      obtener hf t' k = some v ∧
      ∀ k', k' ≠ k → obtener hf t' k' = obtener hf t k' :=
  insertarGo_spec _ t k v t' hWF heq

/-- `HashTable.insertar` on a key that is already stored always raises
`TypeError`: the update branch executes `par[1] = valor` on a tuple. -/
theorem insertar_tieneClave_typeError (t : HashTable κ V) (k : κ) (v : V)
    (h : tieneClave hf t k = true) :
    insertar hf t k v = .error .typeError := by
  unfold insertar
  simp only [insertarGo]
  rw [if_pos h]

end HashTable

/-! ### Auxiliary list lemmas for `eliminar` and in-place mutation -/

lemma eliminar_find?_eq_eraseP {α : Type} [DecidableEq α] (P : α → Bool) :
    ∀ (l : List α) (x : α), l.find? P = some x →
      ListaEnlazada.eliminar l x = (true, l.eraseP P)
  | [], x, hfind => by simp at hfind
  | a :: l', x, hfind => by
    cases hPa : P a with
    | true =>
      rw [List.find?_cons, hPa] at hfind
      injection hfind with hax
      subst hax
      unfold ListaEnlazada.eliminar
      rw [if_pos rfl, List.eraseP_cons_of_pos hPa]
    | false =>
      rw [List.find?_cons, hPa] at hfind
      have hPx : P x = true := List.find?_some hfind
      have hax : a ≠ x := fun h => by rw [h, hPx] at hPa; cases hPa
      have ih := eliminar_find?_eq_eraseP P l' x hfind
      unfold ListaEnlazada.eliminar
      rw [if_neg hax, ih, List.eraseP_cons_of_neg (by simp [hPa])]

lemma find?_eraseP_self {κ V : Type} [DecidableEq κ] (k : κ) :
    ∀ (l : List (κ × V)), (l.map Prod.fst).Nodup →
      (l.eraseP fun p => decide (p.1 = k)).find? (fun p => decide (p.1 = k)) =
        none
  | [], _ => rfl
  | a :: l', hnd => by
    rw [List.map_cons] at hnd
    obtain ⟨ha, hnd'⟩ := List.nodup_cons.mp hnd
    by_cases hPa : a.1 = k
    · rw [List.eraseP_cons_of_pos (by simp [hPa]), List.find?_eq_none]
      intro x hx hPx
      apply ha
      have hxk : x.1 = k := by simpa using hPx
      have : x.1 ∈ l'.map Prod.fst := List.mem_map.2 ⟨x, hx, rfl⟩
      rw [hxk, ← hPa] at this
      exact this
    · rw [List.eraseP_cons_of_neg (by simp [hPa]), List.find?_cons]
      have hd : (decide (a.1 = k)) = false := by simp [hPa]
      rw [hd]
      exact find?_eraseP_self k l' hnd'

lemma find?_eraseP_other {α : Type} (P Q : α → Bool)
    (hdisj : ∀ x, P x = true → Q x = false) :
    ∀ l : List α, (l.eraseP P).find? Q = l.find? Q
  | [] => rfl
  | a :: l' => by
    by_cases hPa : P a = true
    · rw [List.eraseP_cons_of_pos hPa, List.find?_cons, hdisj a hPa]
    · rw [List.eraseP_cons_of_neg hPa, List.find?_cons, List.find?_cons]
      cases hQa : Q a with
      | true => rfl
      | false => exact find?_eraseP_other P Q hdisj l'

lemma flatten_set_sublist {α : Type} :
    ∀ (l : List (List α)) (i : Nat) (x : List α), x.Sublist (l.getD i []) →
      (l.set i x).flatten.Sublist l.flatten
  | [], _, _, _ => by simp
  | b :: bs, 0, x, h => by
    rw [List.set_cons_zero, List.flatten_cons, List.flatten_cons]
    have h0 : x.Sublist b := by simpa using h
    exact h0.append (List.Sublist.refl _)
  | b :: bs, i + 1, x, h => by
    rw [List.set_cons_succ, List.flatten_cons, List.flatten_cons]
    exact (List.Sublist.refl b).append
      (flatten_set_sublist bs i x (by simpa using h))

lemma flatten_set_map {α β : Type} (f : α → β) :
    ∀ (l : List (List α)) (i : Nat) (x : List α),
      x.map f = (l.getD i []).map f →
      (l.set i x).flatten.map f = l.flatten.map f
  | [], _, _, _ => rfl
  | b :: bs, 0, x, h => by
    rw [List.set_cons_zero, List.flatten_cons, List.flatten_cons,
      List.map_append, List.map_append, h, List.getD_cons_zero]
  | b :: bs, i + 1, x, h => by
    rw [List.set_cons_succ, List.flatten_cons, List.flatten_cons,
      List.map_append, List.map_append,
      flatten_set_map f bs i x (by simpa using h)]

/-! ### Specification of `eliminar`, `obtener_claves` and in-place mutation -/

namespace HashTable

variable {κ V : Type} [DecidableEq κ] [DecidableEq V] {hf : κ → Nat}

lemma mem_claves_iff {t : HashTable κ V} (hWF : WF hf t) (k : κ) :
    k ∈ obtenerClaves t ↔ contiene hf t k = true := by
  unfold obtenerClaves contiene
  rw [obtener_eq_flatten hWF, Option.isSome_map']
  constructor
  · intro hmem
    rcases List.mem_map.1 hmem with ⟨p, hp, rfl⟩
    cases hfind : t.buckets.flatten.find? fun par => decide (par.1 = p.1) with
    | none =>
      exact absurd (by simp : (decide (p.1 = p.1)) = true)
        (List.find?_eq_none.mp hfind p hp)
    | some a => rfl
  · intro hsome
    cases hfind : t.buckets.flatten.find? (fun par => decide (par.1 = k)) with
    | none => rw [hfind] at hsome; exact absurd hsome (by simp)
    | some a =>
      have hak : a.1 = k := by simpa using List.find?_some hfind
      exact List.mem_map.2 ⟨a, List.mem_of_find?_eq_some hfind, hak⟩

/-- Specification of `HashTable.eliminar` for a stored key on a well-formed
table with no duplicate keys: it reports success, keeps the table
well-formed and duplicate-free, removes exactly the given key and leaves
every other key's binding untouched. -/
theorem eliminar_spec {t : HashTable κ V} {k : κ} (hWF : WF hf t)
    (hnd : (obtenerClaves t).Nodup) (hcont : contiene hf t k = true) :
    (eliminar hf t k).1 = true ∧
      WF hf (eliminar hf t k).2 ∧
      (obtenerClaves (eliminar hf t k).2).Nodup ∧
      obtener hf (eliminar hf t k).2 k = none ∧
      (∀ k', k' ≠ k → obtener hf (eliminar hf t k).2 k' = obtener hf t k') ∧
      (∀ k', k' ∈ obtenerClaves (eliminar hf t k).2 ↔
        (k' ∈ obtenerClaves t ∧ k' ≠ k)) := by
  obtain ⟨hcap, hlen, htam, hplace⟩ := hWF
  have hWF0 : WF hf t := ⟨hcap, hlen, htam, hplace⟩
  have hlt : indice hf t k < t.buckets.length := indice_lt hWF0 k
  -- The lookup that `eliminar` performs succeeds.
  unfold contiene obtener at hcont
  cases hfind : (bucketDe hf t k).find? (fun par => decide (par.1 = k)) with
  | none => rw [hfind] at hcont; exact absurd hcont (by simp)
  | some par =>
  have hmempar : par ∈ bucketDe hf t k := List.mem_of_find?_eq_some hfind
  have hpark : par.1 = k := by simpa using List.find?_some hfind
  have hbnd : ((bucketDe hf t k).map Prod.fst).Nodup := by
    have hsub : (bucketDe hf t k).Sublist t.buckets.flatten := by
      unfold bucketDe
      rw [List.getD_eq_getElem?_getD, List.getElem?_eq_getElem hlt]
      exact List.sublist_flatten_of_mem (List.getElem_mem hlt)
    exact (hsub.map Prod.fst).nodup hnd
  have helim := eliminar_find?_eq_eraseP (fun par => decide (par.1 = k))
    (bucketDe hf t k) par hfind
  have hres0 : eliminar hf t k =
      (true, ⟨t.capacidad, t.tamano - 1,
        t.buckets.set (indice hf t k)
          (ListaEnlazada.eliminar (bucketDe hf t k) par).2⟩) := by
    unfold eliminar
    rw [hfind]
  have hres : eliminar hf t k =
      (true, ⟨t.capacidad, t.tamano - 1,
        t.buckets.set (indice hf t k)
          ((bucketDe hf t k).eraseP fun p => decide (p.1 = k))⟩) := by
    rw [hres0, helim]
  set bucket' := (bucketDe hf t k).eraseP fun p => decide (p.1 = k) with hbucket'
  set t' : HashTable κ V :=
    ⟨t.capacidad, t.tamano - 1, t.buckets.set (indice hf t k) bucket'⟩
    with ht'
  have hsubB : bucket'.Sublist (bucketDe hf t k) := List.eraseP_sublist _
  have hsubF : t'.buckets.flatten.Sublist t.buckets.flatten :=
    flatten_set_sublist _ _ _ hsubB
  -- Bucket of `t'` for any key.
  have hbucketDe : ∀ k' : κ, bucketDe hf t' k' =
      if indice hf t k' = indice hf t k then bucket' else bucketDe hf t k' := by
    intro k'
    unfold bucketDe indice
    show (t.buckets.set (hf k % t.capacidad) bucket').getD
        (hf k' % t.capacidad) [] = _
    split
    · next h => rw [show hf k' % t.capacidad = hf k % t.capacidad from h]
                exact getD_set_self _ _ _ _ hlt
    · next h => exact getD_set_ne _ _ _ (Ne.symm h)
  have hWF' : WF hf t' := by
    refine ⟨hcap, by simp [ht', hlen], ?_, ?_⟩
    · have hb := flatten_length_set t.buckets (indice hf t k) bucket' hlt
      have hershort : bucket'.length = (bucketDe hf t k).length - 1 :=
        List.length_eraseP_of_mem hmempar (by simp [hpark])
      have hpos : 0 < (bucketDe hf t k).length := List.length_pos_of_mem hmempar
      show t.tamano - 1 = t'.buckets.flatten.length
      have hge : (bucketDe hf t k).length ≤ t.buckets.flatten.length := by
        have := hsubB  -- unused; length bound comes from sublist of flatten
        have hsub2 : (bucketDe hf t k).Sublist t.buckets.flatten := by
          unfold bucketDe
          rw [List.getD_eq_getElem?_getD, List.getElem?_eq_getElem hlt]
          exact List.sublist_flatten_of_mem (List.getElem_mem hlt)
        exact hsub2.length_le
      unfold bucketDe at hb hershort hpos hge
      simp only [ht']
      omega
    · intro i hi p hp
      simp only [ht', List.length_set] at hi
      by_cases hcase : i = indice hf t k
      · subst hcase
        have : (t.buckets.set (indice hf t k) bucket').getD (indice hf t k) []
            = bucket' := getD_set_self _ _ _ _ hlt
        rw [show t'.buckets = t.buckets.set (indice hf t k) bucket' from rfl,
          this] at hp
        exact hplace _ hlt p (hsubB.subset hp)
      · rw [show t'.buckets = t.buckets.set (indice hf t k) bucket' from rfl,
          getD_set_ne _ _ _ (Ne.symm hcase)] at hp
        exact hplace i hi p hp
  have hnd' : (obtenerClaves t').Nodup := (hsubF.map Prod.fst).nodup hnd
  have hself : obtener hf t' k = none := by
    unfold obtener
    rw [hbucketDe k, if_pos rfl, hbucket', find?_eraseP_self k _ hbnd]
    rfl
  have hframe : ∀ k', k' ≠ k → obtener hf t' k' = obtener hf t k' := by
    intro k' hk
    unfold obtener
    rw [hbucketDe k']
    split
    · next hidx =>
      rw [hbucket', find?_eraseP_other _ _
        (fun x hx => by
          have hxk : x.1 = k := by simpa using hx
          simp only [decide_eq_false_iff_not, hxk]
          exact fun h => hk h.symm)]
      unfold bucketDe
      rw [hidx]
    · rfl
  have hclaves : ∀ k', k' ∈ obtenerClaves t' ↔
      (k' ∈ obtenerClaves t ∧ k' ≠ k) := by
    intro k'
    constructor
    · intro hmem
      have hin : k' ∈ obtenerClaves t :=
        (hsubF.map Prod.fst).subset hmem
      refine ⟨hin, ?_⟩
      rintro rfl
      have := (mem_claves_iff hWF' k').1 hmem
      unfold contiene at this
      rw [hself] at this
      exact absurd this (by simp)
    · rintro ⟨hin, hk⟩
      have hcont' := (mem_claves_iff hWF0 k').1 hin
      apply (mem_claves_iff hWF' k').2
      unfold contiene at hcont' ⊢
      rw [hframe k' hk]
      exact hcont'
  rw [hres]
  exact ⟨rfl, hWF', hnd', hself, hframe, hclaves⟩

end HashTable

lemma set_getD_eq {α : Type} :
    ∀ (l : List α) (i : Nat) (d : α), i < l.length → l.set i (l.getD i d) = l
  | [], i, d, h => by simp at h
  | a :: l', 0, d, _ => by rw [List.getD_cons_zero, List.set_cons_zero]
  | a :: l', i + 1, d, h => by
    rw [List.getD_cons_succ, List.set_cons_succ,
      set_getD_eq l' i d (by simpa using h)]

namespace HashTable

variable {κ V : Type} [DecidableEq κ] [DecidableEq V] {hf : κ → Nat}

lemma muta_map_fst (k : κ) (f : V → V) :
    ∀ b : List (κ × V), (muta k f b).map Prod.fst = b.map Prod.fst
  | [] => rfl
  | (k1, v1) :: rest => by
    unfold muta
    split
    · rfl
    · rw [List.map_cons, List.map_cons, muta_map_fst k f rest]

lemma muta_find?_self (k : κ) (f : V → V) :
    ∀ b : List (κ × V),
      ((muta k f b).find? fun p => decide (p.1 = k)).map (·.2) =
        ((b.find? fun p => decide (p.1 = k)).map (·.2)).map f
  | [] => rfl
  | (k1, v1) :: rest => by
    unfold muta
    by_cases h : k1 = k
    · rw [if_pos h]
      rw [List.find?_cons, List.find?_cons]
      have hd : (decide (k1 = k)) = true := by simp [h]
      rw [hd]
      rfl
    · rw [if_neg h]
      rw [List.find?_cons, List.find?_cons]
      have hd : (decide (k1 = k)) = false := by simp [h]
      rw [hd]
      exact muta_find?_self k f rest

lemma muta_find?_other (k : κ) (f : V → V) {k' : κ} (hne : k' ≠ k) :
    ∀ b : List (κ × V),
      (muta k f b).find? (fun p => decide (p.1 = k')) =
        b.find? fun p => decide (p.1 = k')
  | [] => rfl
  | (k1, v1) :: rest => by
    unfold muta
    by_cases h : k1 = k
    · rw [if_pos h]
      rw [List.find?_cons, List.find?_cons]
      have hd : (decide (k1 = k')) = false := by
        simp only [decide_eq_false_iff_not]
        rw [h]
        exact fun hc => hne hc.symm
      rw [hd]
    · rw [if_neg h]
      rw [List.find?_cons, List.find?_cons]
      cases hd : (decide (k1 = k')) with
      | true => rfl
      | false => exact muta_find?_other k f hne rest

lemma muta_fix_of_find? (k : κ) (f : V → V) {b : List (κ × V)}
    {par : κ × V} (hfind : b.find? (fun p => decide (p.1 = k)) = some par)
    (hfix : f par.2 = par.2) : muta k f b = b := by
  induction b with
  | nil => simp at hfind
  | cons hd tl ih =>
    rw [List.find?_cons] at hfind
    obtain ⟨k1, v1⟩ := hd
    unfold muta
    by_cases h : k1 = k
    · rw [if_pos h]
      have hd2 : (decide ((k1, v1).1 = k)) = true := by simp [h]
      rw [hd2] at hfind
      injection hfind with hpar
      rw [← hpar] at hfix
      simp only at hfix
      rw [hfix]
    · rw [if_neg h]
      have hd2 : (decide ((k1, v1).1 = k)) = false := by simp [h]
      rw [hd2] at hfind
      rw [ih hfind]

/-- Specification of the in-place mutation of the value stored under a key:
the target key's value is mapped through `f`, every other binding, the key
enumeration, the size and well-formedness are preserved. -/
theorem modifica_spec {t : HashTable κ V} (hWF : WF hf t) (k : κ)
    (f : V → V) :
    WF hf (modificaEnSitio hf t k f) ∧
      obtenerClaves (modificaEnSitio hf t k f) = obtenerClaves t ∧
      (modificaEnSitio hf t k f).tamano = t.tamano ∧
      obtener hf (modificaEnSitio hf t k f) k = (obtener hf t k).map f ∧
      (∀ k', k' ≠ k →
        obtener hf (modificaEnSitio hf t k f) k' = obtener hf t k') := by
  obtain ⟨hcap, hlen, htam, hplace⟩ := hWF
  have hWF0 : WF hf t := ⟨hcap, hlen, htam, hplace⟩
  have hlt : indice hf t k < t.buckets.length := indice_lt hWF0 k
  have hmapfst : (muta k f (bucketDe hf t k)).map Prod.fst =
      (t.buckets.getD (indice hf t k) []).map Prod.fst := muta_map_fst k f _
  have hclaves : obtenerClaves (modificaEnSitio hf t k f) = obtenerClaves t :=
    flatten_set_map Prod.fst t.buckets (indice hf t k) _ hmapfst
  have hbucketDe : ∀ k' : κ, bucketDe hf (modificaEnSitio hf t k f) k' =
      if indice hf t k' = indice hf t k
      then muta k f (bucketDe hf t k) else bucketDe hf t k' := by
    intro k'
    unfold bucketDe indice modificaEnSitio
    simp only []
    split
    · next h => rw [show hf k' % t.capacidad = hf k % t.capacidad from h]
                exact getD_set_self _ _ _ _ hlt
    · next h => exact getD_set_ne _ _ _ (Ne.symm h)
  refine ⟨⟨hcap, by simp [modificaEnSitio, hlen], ?_, ?_⟩, hclaves, rfl, ?_, ?_⟩
  · show t.tamano = (modificaEnSitio hf t k f).buckets.flatten.length
    have := congrArg List.length hclaves
    unfold obtenerClaves at this
    rw [List.length_map, List.length_map] at this
    rw [htam, ← this]
  · intro i hi p hp
    simp only [modificaEnSitio, List.length_set] at hi
    by_cases hcase : i = indice hf t k
    · subst hcase
      have hb : (modificaEnSitio hf t k f).buckets.getD (indice hf t k) [] =
          muta k f (bucketDe hf t k) := by
        show (t.buckets.set (indice hf t k) _).getD (indice hf t k) [] = _
        exact getD_set_self _ _ _ _ hlt
      rw [hb] at hp
      have : p.1 ∈ (muta k f (bucketDe hf t k)).map Prod.fst :=
        List.mem_map.2 ⟨p, hp, rfl⟩
      rw [hmapfst] at this
      rcases List.mem_map.1 this with ⟨q, hq, hqp⟩
      have := hplace _ hlt q hq
      rw [hqp] at this
      exact this
    · have hb : (modificaEnSitio hf t k f).buckets.getD i [] =
          t.buckets.getD i [] := by
        show (t.buckets.set (indice hf t k) _).getD i [] = _
        exact getD_set_ne _ _ _ (Ne.symm hcase)
      rw [hb] at hp
      exact hplace i hi p hp
  · unfold obtener
    rw [hbucketDe k, if_pos rfl, muta_find?_self]
  · intro k' hk
    unfold obtener
    rw [hbucketDe k']
    split
    · next hidx =>
      rw [muta_find?_other k f hk]
      unfold bucketDe
      rw [hidx]
    · rfl

/-- Writing back a value the stored one is a fixpoint of is the identity
on the table: the bucket is unchanged pair by pair. -/
theorem modifica_fix_self {t : HashTable κ V} (hWF : WF hf t) {k : κ}
    {v : V} {f : V → V} (hv : obtener hf t k = some v) (hfix : f v = v) :
    modificaEnSitio hf t k f = t := by
  have hlt : indice hf t k < t.buckets.length := indice_lt hWF k
  unfold obtener at hv
  cases hfind : (bucketDe hf t k).find? fun p => decide (p.1 = k) with
  | none => rw [hfind] at hv; exact absurd hv (by simp)
  | some par =>
    rw [hfind] at hv
    have hpar2 : par.2 = v := by
      injection hv
    unfold modificaEnSitio
    rw [muta_fix_of_find? k f hfind (by rw [hpar2, hfix])]
    unfold bucketDe
    rw [set_getD_eq _ _ _ hlt]

end HashTable
/-! ## The claims -/

/-- C1: the claim says that inserting under an already-present key
overwrites the stored value.  In the code the update branch executes
`par[1] = valor` on the stored tuple, so `HashTable.insertar` raises
`TypeError` for every map and every key already present in it, against its
own comment `# Actualizar valor existente`. -/
theorem c1_insertar_clave_existente_lanza_typeError {κ V : Type}
    [DecidableEq κ] [DecidableEq V] (hf : κ → Nat) (t : HashTable κ V)
    (k : κ) (v : V) (h : HashTable.tieneClave hf t k = true) :
    HashTable.insertar hf t k v = .error .typeError :=
  HashTable.insertar_tieneClave_typeError t k v h

/-- C1 witness: the table `{1: 37}` holds key 1, and re-inserting under
key 1 raises `TypeError`. -/
theorem c1_insertar_clave_existente_lanza_typeError_witness :
    HashTable.tieneClave pyHashNat tablaUno 1 = true ∧
      HashTable.insertar pyHashNat tablaUno 1 (99 : ℚ) = .error .typeError :=
  ⟨by decide,
    c1_insertar_clave_existente_lanza_typeError pyHashNat tablaUno 1 99
      (by decide)⟩

/-- C2: on the specification's scenario graph — built through the
program's own operations — the single-pair query `shortest_path(A, C)`
does not return distance 2 with nodes `[A, B, C]`: it raises `TypeError`
at `distancias.insertar(id_origen, 0)`, the key-update inside
`HashTable.insertar`.  (Independently, `agregar_arista` replaces the
explicit weight 1 of A→B by Euclidean distance / 50 = 2 at edge creation,
so even without the crash the scenario's expected distance could not be
2.) -/
theorem c2_escenario_abc_lanza_typeError :
    construyeGrafoABC = .ok grafoABC ∧
      (grafoABC.obtener_aristas_nodo 1).map (fun a => a.destino.id) =
        [2, 3] ∧
      AlgoritmoDijkstra.encontrar_ruta_mas_corta grafoABC 1 3 =
        .error .typeError := by
  refine ⟨by rfl, by decide, by rfl⟩

/-- C3: on the two-isolated-node graph, a query with an absent origin id
does return the "no path" result `(None, [], [])` without aborting, but
the claim also covers present-but-unreachable pairs, and there the routine
aborts: `shortest_path(1, 2)` raises `TypeError` instead of reporting
unreachable. -/
theorem c3_inalcanzable_lanza_typeError :
    AlgoritmoDijkstra.encontrar_ruta_mas_corta grafoAislado 5 2 =
        .ok (none, [], []) ∧
      AlgoritmoDijkstra.encontrar_ruta_mas_corta grafoAislado 1 2 =
        .error .typeError := by
  refine ⟨by decide, by decide⟩

/-- C4: on the scenario graph with origin A present, the multi-destination
query raises `TypeError` (at the same `distancias.insertar(id_origen, 0)`
update), and so does the single-pair query it is claimed to agree with;
neither returns a distance mapping. -/
theorem c4_rutas_multiples_lanza_typeError :
    AlgoritmoDijkstra.encontrar_rutas_multiples grafoABC 1 [3] =
        .error .typeError ∧
      AlgoritmoDijkstra.encontrar_ruta_mas_corta grafoABC 1 3 =
        .error .typeError := by
  refine ⟨by decide, by decide⟩

/-- C5 counterexample: block a fresh weight-5 edge, add a vehicle while it
is blocked (`calcular_peso_dinamico` returns `inf` without updating
`peso_actual`), then unblock.  The edge is now unblocked with load 1, yet
`current_weight = 5 ≠ 5 * (1 + 2·1/10) = 6`: the claimed equation fails
after these operations. -/
theorem c5_ecuacion_peso_contraejemplo :
    aristaC5tras.bloqueada = false ∧ aristaC5tras.carga_trafico = 1 ∧
      ¬ aristaC5tras.ecuacionPeso := by
  refine ⟨rfl, rfl, ?_⟩
  unfold AristaGrafo.ecuacionPeso
  rw [show aristaC5tras.peso_actual = 5 from rfl,
    show aristaC5tras.peso_base = 5 from rfl,
    show aristaC5tras.carga_trafico = 1 from rfl,
    show aristaC5tras.capacidad_maxima = 10 from rfl,
    show (max 10 1 : Nat) = 10 from rfl]
  norm_num

/-- C5 amended: starting from an edge satisfying the weight equation, the
equation is preserved by `agregar_vehiculo` and `remover_vehiculo`
*performed while the edge is not blocked* and by setting or clearing the
blocked flag; while blocked, `calcular_peso_dinamico` yields infinity for
routing.  (A load change applied while the edge is blocked leaves
`peso_actual` stale, which is exactly the counterexample.) -/
theorem c5_ecuacion_peso_amended (a : AristaGrafo)
    (hecu : a.ecuacionPeso) :
    (a.bloqueada = false →
      a.agregar_vehiculo.ecuacionPeso ∧ a.remover_vehiculo.ecuacionPeso) ∧
      ({ a with bloqueada := true } : AristaGrafo).ecuacionPeso ∧
      ({ a with bloqueada := false } : AristaGrafo).ecuacionPeso ∧
      (a.bloqueada = true →
        (AristaGrafo.calcular_peso_dinamico a).1 = Flt.inf) := by
  obtain ⟨o, d, pb, pa, bi, bl, ct, cm, tp⟩ := a
  unfold AristaGrafo.ecuacionPeso at hecu
  refine ⟨?_, hecu, hecu, ?_⟩
  · intro hnb
    have hb : bl = false := hnb
    subst hb
    constructor
    · show pb * (1 + ((ct + 1 : Nat) : ℚ) / ((max cm 1 : Nat) : ℚ) * 2) =
        pb * (1 + 2 * ((ct + 1 : Nat) : ℚ) / ((max cm 1 : Nat) : ℚ))
      ring
    · unfold AristaGrafo.remover_vehiculo
      by_cases hc : ct > 0
      · rw [if_pos hc]
        show pb * (1 + ((ct - 1 : Nat) : ℚ) / ((max cm 1 : Nat) : ℚ) * 2) =
          pb * (1 + 2 * ((ct - 1 : Nat) : ℚ) / ((max cm 1 : Nat) : ℚ))
        ring
      · rw [if_neg hc]
        exact hecu
  · intro hb
    have hb2 : bl = true := hb
    subst hb2
    rfl

/-- C5 amended witness: a fresh unblocked weight-5 edge satisfies the
equation, and the amended statement holds of it. -/
theorem c5_ecuacion_peso_amended_witness :
    aristaC5.ecuacionPeso ∧
      ((aristaC5.bloqueada = false →
        aristaC5.agregar_vehiculo.ecuacionPeso ∧
          aristaC5.remover_vehiculo.ecuacionPeso) ∧
      ({ aristaC5 with bloqueada := true } : AristaGrafo).ecuacionPeso ∧
      ({ aristaC5 with bloqueada := false } : AristaGrafo).ecuacionPeso ∧
      (aristaC5.bloqueada = true →
        (AristaGrafo.calcular_peso_dinamico aristaC5).1 = Flt.inf)) :=
  ⟨by norm_num [aristaC5, AristaGrafo.nueva, AristaGrafo.ecuacionPeso],
    c5_ecuacion_peso_amended aristaC5
      (by norm_num [aristaC5, AristaGrafo.nueva, AristaGrafo.ecuacionPeso])⟩

/-- C6: bottleneck detection does *not* restore the graph on every exit
path.  On the two-node graph it blocks edge 1→2, calls the path query,
which raises `TypeError`; the exception propagates and the routine returns
with the edge still blocked — a state different from the input graph. -/
theorem c6_cuellos_botella_no_restaura :
    AnalizadorTrafico.identificar_cuellos_botella grafoDos =
        (.error .typeError, AnalizadorTrafico.ponBloqueada grafoDos 1 0 true) ∧
      (AnalizadorTrafico.leeArista grafoDos 1 0).map AristaGrafo.bloqueada =
        some false ∧
      (AnalizadorTrafico.leeArista
          (AnalizadorTrafico.ponBloqueada grafoDos 1 0 true) 1 0).map
        AristaGrafo.bloqueada = some true ∧
      AnalizadorTrafico.ponBloqueada grafoDos 1 0 true ≠ grafoDos := by
  refine ⟨by decide, by decide, by decide, by decide⟩

/-- C8: `crear_vehiculo` on two connected nodes never completes — the path
query it makes raises `TypeError` (whatever the random draws for speed,
colour and type are), so no vehicle is ever registered and the load
invariant's premise is unrealisable. -/
theorem c8_crear_vehiculo_lanza_typeError (velocidad : ℚ)
    (color : Nat × Nat × Nat) (tipo : String) :
    GestorVehiculos.nuevo.crear_vehiculo grafoDos 1 2 velocidad color tipo =
      .error .typeError := rfl

/-- C10: `contiene` is exactly "the observable lookup is not `None`"; and
when `insertar(k, None)` succeeds on a well-formed map with `k` absent,
the pair is stored and counted in the size, yet `contiene(k)` is false and
the observable lookup returns `None` both before and after — a stored
`None` is indistinguishable from an absent key. -/
theorem c10_contiene_conflacion_none {κ β : Type} [DecidableEq κ]
    [DecidableEq β] (hf : κ → Nat) :
    (∀ (t : HashTable κ (Option β)) (k : κ),
      HashTable.contieneOpt hf t k = true ↔
        HashTable.obtenerOpt hf t k ≠ none) ∧
    (∀ (t : HashTable κ (Option β)) (k : κ) (t' : HashTable κ (Option β)),
      HashTable.WF hf t → HashTable.insertar hf t k none = .ok t' →
      HashTable.obtener hf t' k = some none ∧
        t'.tamano = t.tamano + 1 ∧
        HashTable.contieneOpt hf t' k = false ∧
        HashTable.obtenerOpt hf t' k = none ∧
        HashTable.obtenerOpt hf t k = none) := by
  constructor
  · intro t k
    unfold HashTable.contieneOpt
    exact Option.isSome_iff_ne_none
  · intro t k t' hWF heq
    obtain ⟨hnone, hWF', htam, hself, hframe⟩ :=
      HashTable.insertar_spec hWF heq
    refine ⟨hself, htam, ?_, ?_, ?_⟩
    · unfold HashTable.contieneOpt HashTable.obtenerOpt
      rw [hself]
      rfl
    · unfold HashTable.obtenerOpt
      rw [hself]
      rfl
    · unfold HashTable.obtenerOpt
      rw [hnone]
      rfl

/-- C10 witness: inserting `None` under key 1 into a fresh table succeeds
and exhibits the conflation concretely. -/
theorem c10_contiene_conflacion_none_witness :
    HashTable.obtener pyHashNat tablaNone 1 = some none ∧
      tablaNone.tamano =
        (HashTable.vacia 16 : HashTable Nat (Option ℚ)).tamano + 1 ∧
      HashTable.contieneOpt pyHashNat tablaNone 1 = false ∧
      HashTable.obtenerOpt pyHashNat tablaNone 1 = none ∧
      HashTable.obtenerOpt pyHashNat
        (HashTable.vacia 16 : HashTable Nat (Option ℚ)) 1 = none :=
  (c10_contiene_conflacion_none pyHashNat).2 (HashTable.vacia 16) 1 tablaNone
    (by decide) (by decide)

/-! ## Proof layer for the blocking claims -/

namespace HashTable

variable {κ V : Type} [DecidableEq κ] [DecidableEq V] {hf : κ → Nat}

lemma muta_muta (k : κ) (f f2 : V → V) :
    ∀ b : List (κ × V), muta k f2 (muta k f b) = muta k (fun x => f2 (f x)) b
  | [] => rfl
  | (k1, v1) :: rest => by
    by_cases h : k1 = k
    · subst h
      simp [muta]
    · simp [muta, h, muta_muta k f f2 rest]

lemma modifica_modifica {t : HashTable κ V} (hWF : WF hf t) (k : κ)
    (f f2 : V → V) :
    modificaEnSitio hf (modificaEnSitio hf t k f) k f2 =
      modificaEnSitio hf t k (fun x => f2 (f x)) := by
  obtain ⟨cap, tam, bk⟩ := t
  obtain ⟨hcap, hlen, -⟩ := hWF
  have hlt : hf k % cap < bk.length := by
    rw [hlen]
    exact Nat.mod_lt _ hcap
  unfold modificaEnSitio bucketDe indice
  dsimp only
  congr 1
  rw [getD_set_self _ _ _ _ hlt, List.set_set, muta_muta]

end HashTable

lemma bloqueaPrimera_decomp (v : Nat) (b : Bool) :
    ∀ (l1 : List AristaGrafo) (e : AristaGrafo) (l2 : List AristaGrafo),
      (∀ a ∈ l1, a.destino.id ≠ v) → e.destino.id = v →
      GrafoTrafico.bloqueaPrimera v b (l1 ++ e :: l2) =
        some (l1 ++ { e with bloqueada := b } :: l2)
  | [], e, l2, _, he => by
    show GrafoTrafico.bloqueaPrimera v b (e :: l2) =
      some ({ e with bloqueada := b } :: l2)
    simp only [GrafoTrafico.bloqueaPrimera]
    rw [if_pos he]
  | a :: l1, e, l2, h1, he => by
    have ha : a.destino.id ≠ v := h1 a (List.mem_cons_self a l1)
    have ih := bloqueaPrimera_decomp v b l1 e l2
      (fun x hx => h1 x (List.mem_cons_of_mem a hx)) he
    rw [List.cons_append]
    simp only [GrafoTrafico.bloqueaPrimera]
    rw [if_neg ha, ih]
    rfl

/-- C7 counterexample: on the two-node graph whose only edge 1→2 is
already blocked, the edge is present in node 1's list, the neighbour query
is empty, and the block/unblock round trip is *not* the identity on it:
afterwards node 2 appears among the neighbours. -/
theorem c7_bloquear_contraejemplo :
    (grafoDosBloqueado.obtener_aristas_nodo 1).map (fun a => a.destino.id) =
        [2] ∧
      grafoDosBloqueado.obtener_vecinos 1 = [] ∧
      ((grafoDosBloqueado.bloquear_arista 1 2).2.desbloquear_arista
          1 2).2.obtener_vecinos 1 ≠ [] := by
  refine ⟨by decide, by decide, by decide⟩

/-- C7 amended: for a directed edge u→v that is the *only* edge from `u`
to `v` in `u`'s adjacency list and is *not blocked*, blocking reports
success and removes `v` from `obtener_vecinos u`, and unblocking
afterwards restores the whole graph — hence the neighbour query — to its
state before the block. -/
theorem c7_bloquear_desbloquear_amended (g : GrafoTrafico) (u v : Nat)
    (l1 : List AristaGrafo) (e : AristaGrafo) (l2 : List AristaGrafo)
    (hWFa : HashTable.WF pyHashNat g.lista_adyacencia)
    (hL : HashTable.obtener pyHashNat g.lista_adyacencia u =
      some (l1 ++ e :: l2))
    (h1 : ∀ a ∈ l1, a.destino.id ≠ v)
    (he : e.destino.id = v) (hnb : e.bloqueada = false)
    (h2 : ∀ a ∈ l2, a.destino.id ≠ v) :
    (g.bloquear_arista u v).1 = true ∧
      (∀ p ∈ (g.bloquear_arista u v).2.obtener_vecinos u, p.1.id ≠ v) ∧
      (g.bloquear_arista u v).2.desbloquear_arista u v = (true, g) := by
  have hbp := bloqueaPrimera_decomp v true l1 e l2 h1 he
  have haristas : g.obtener_aristas_nodo u = l1 ++ e :: l2 := by
    unfold GrafoTrafico.obtener_aristas_nodo
    rw [hL]
    rfl
  have hbloq : g.bloquear_arista u v =
      (true,
        { g with lista_adyacencia :=
            (HashTable.modificaEnSitio pyHashNat g.lista_adyacencia u
              (fun _ => l1 ++ { e with bloqueada := true } :: l2)) }) := by
    unfold GrafoTrafico.bloquear_arista
    rw [haristas, hbp]
  obtain ⟨hWFa', hclaves', htam', hself', hframe'⟩ :=
    HashTable.modifica_spec hWFa u
      (fun _ : List AristaGrafo => l1 ++ { e with bloqueada := true } :: l2)
  have hady1 : HashTable.obtener pyHashNat
      (g.bloquear_arista u v).2.lista_adyacencia u =
      some (l1 ++ { e with bloqueada := true } :: l2) := by
    rw [hbloq]
    rw [show ({ g with lista_adyacencia :=
        (HashTable.modificaEnSitio pyHashNat g.lista_adyacencia u
          (fun _ => l1 ++ { e with bloqueada := true } :: l2)) }
        : GrafoTrafico).lista_adyacencia =
      HashTable.modificaEnSitio pyHashNat g.lista_adyacencia u
        (fun _ => l1 ++ { e with bloqueada := true } :: l2) from rfl]
    rw [hself', hL]
    rfl
  refine ⟨by rw [hbloq], ?_, ?_⟩
  · intro p hp
    unfold GrafoTrafico.obtener_vecinos at hp
    rw [hady1] at hp
    rcases List.mem_map.1 hp with ⟨a, ha, rfl⟩
    rw [List.mem_filter] at ha
    obtain ⟨hmem, hcond⟩ := ha
    rcases List.mem_append.1 hmem with hmem1 | hmem2
    · exact h1 a hmem1
    · rcases List.mem_cons.1 hmem2 with rfl | hmem3
      · simp at hcond
      · exact h2 a hmem3
  · have heres : ({ e with bloqueada := true } : AristaGrafo).destino.id = v :=
      he
    have hbp2 := bloqueaPrimera_decomp v false l1
      ({ e with bloqueada := true }) l2 h1 heres
    have heeq : ({ ({ e with bloqueada := true } : AristaGrafo) with
        bloqueada := false } : AristaGrafo) = e := by
      obtain ⟨o, d, pb, pa, bi, bl, ct, cm, tp⟩ := e
      have : bl = false := hnb
      subst this
      rfl
    rw [heeq] at hbp2
    unfold GrafoTrafico.desbloquear_arista
    have haristas1 : (g.bloquear_arista u v).2.obtener_aristas_nodo u =
        l1 ++ { e with bloqueada := true } :: l2 := by
      unfold GrafoTrafico.obtener_aristas_nodo
      rw [hady1]
      rfl
    rw [haristas1, hbp2]
    rw [hbloq]
    have hcomp := HashTable.modifica_modifica hWFa u
      (fun _ : List AristaGrafo => l1 ++ { e with bloqueada := true } :: l2)
      (fun _ : List AristaGrafo => l1 ++ e :: l2)
    have hfix : HashTable.modificaEnSitio pyHashNat g.lista_adyacencia u
        (fun _ => l1 ++ e :: l2) = g.lista_adyacencia :=
      HashTable.modifica_fix_self hWFa hL (by rfl)
    show (true,
      ({ g with lista_adyacencia :=
        (HashTable.modificaEnSitio pyHashNat
          (HashTable.modificaEnSitio pyHashNat g.lista_adyacencia u
            (fun _ => l1 ++ { e with bloqueada := true } :: l2)) u
          (fun _ => l1 ++ e :: l2)) } : GrafoTrafico)) = (true, g)
    rw [hcomp, hfix]

/-- C7 amended witness: the two-node graph with its single unblocked edge
1→2 satisfies the hypotheses, so blocking hides node 2 and the round trip
restores the graph. -/
theorem c7_bloquear_desbloquear_amended_witness :
    (grafoDos.bloquear_arista 1 2).1 = true ∧
      (∀ p ∈ (grafoDos.bloquear_arista 1 2).2.obtener_vecinos 1,
        p.1.id ≠ 2) ∧
      (grafoDos.bloquear_arista 1 2).2.desbloquear_arista 1 2 =
        (true, grafoDos) :=
  c7_bloquear_desbloquear_amended grafoDos 1 2 [] aristaDos [] (by decide)
    (by decide) (by decide) (by decide) (by decide) (by decide)

/-! ## Proof layer for node removal (C9) -/

namespace HashTable

variable {κ V : Type} [DecidableEq κ] [DecidableEq V] {hf : κ → Nat}

lemma eliminar_contiene_false {t : HashTable κ V} {k : κ}
    (h : contiene hf t k = false) : eliminar hf t k = (false, t) := by
  unfold contiene obtener at h
  cases hfind : (bucketDe hf t k).find? (fun par => decide (par.1 = k)) with
  | none =>
    unfold eliminar
    rw [hfind]
  | some par =>
    rw [hfind] at h
    exact absurd h (by simp)

lemma obtener_mem_flatten {t : HashTable κ V} (hWF : WF hf t) {k : κ} {v : V}
    (h : obtener hf t k = some v) : (k, v) ∈ t.buckets.flatten := by
  have hlt : indice hf t k < t.buckets.length := indice_lt hWF k
  unfold obtener at h
  cases hfind : (bucketDe hf t k).find? (fun par => decide (par.1 = k)) with
  | none =>
    rw [hfind] at h
    exact absurd h (by simp)
  | some par =>
    rw [hfind] at h
    have hpk : par.1 = k := by simpa using List.find?_some hfind
    have hpv : par.2 = v := by
      rw [Option.map_some'] at h
      injection h
    have hmem : par ∈ bucketDe hf t k := List.mem_of_find?_eq_some hfind
    have hsub : (bucketDe hf t k).Sublist t.buckets.flatten := by
      unfold bucketDe
      rw [List.getD_eq_getElem?_getD, List.getElem?_eq_getElem hlt]
      exact List.sublist_flatten_of_mem (List.getElem_mem hlt)
    have hpar : par ∈ t.buckets.flatten := hsub.subset hmem
    rw [← hpk, ← hpv]
    exact hpar

end HashTable

lemma foldl_eliminar_ne {α : Type} [DecidableEq α] (x : α) :
    ∀ (cs : List α) (l : List α), (∀ c ∈ cs, c ≠ x) →
      cs.foldl (fun acc a => (ListaEnlazada.eliminar acc a).2) (x :: l) =
        x :: cs.foldl (fun acc a => (ListaEnlazada.eliminar acc a).2) l
  | [], _, _ => rfl
  | c :: cs, l, h => by
    have hcx : c ≠ x := h c (List.mem_cons_self c cs)
    rw [List.foldl_cons, List.foldl_cons]
    have hstep : (ListaEnlazada.eliminar (x :: l) c).2 =
        x :: (ListaEnlazada.eliminar l c).2 := by
      simp only [ListaEnlazada.eliminar]
      rw [if_neg (Ne.symm hcx)]
    rw [hstep]
    exact foldl_eliminar_ne x cs _ (fun d hd => h d (List.mem_cons_of_mem c hd))

lemma foldl_eliminar_filter {α : Type} [DecidableEq α] (P : α → Bool) :
    ∀ l : List α,
      (l.filter P).foldl (fun acc a => (ListaEnlazada.eliminar acc a).2) l =
        l.filter (fun a => !P a)
  | [] => rfl
  | x :: l => by
    cases hPx : P x with
    | true =>
      have h1 : (x :: l).filter P = x :: l.filter P := by
        simp [List.filter_cons, hPx]
      have h2 : (x :: l).filter (fun a => !P a) = l.filter (fun a => !P a) := by
        simp [List.filter_cons, hPx]
      rw [h1, h2, List.foldl_cons]
      have hstep : (ListaEnlazada.eliminar (x :: l) x).2 = l := by
        simp [ListaEnlazada.eliminar]
      rw [hstep]
      exact foldl_eliminar_filter P l
    | false =>
      have h1 : (x :: l).filter P = l.filter P := by
        simp [List.filter_cons, hPx]
      have h2 : (x :: l).filter (fun a => !P a) =
          x :: l.filter (fun a => !P a) := by
        simp [List.filter_cons, hPx]
      have hne : ∀ c ∈ l.filter P, c ≠ x := by
        intro c hc hcx
        have hPc := (List.mem_filter.1 hc).2
        rw [hcx, hPx] at hPc
        exact absurd hPc (by simp)
      rw [h1, h2, foldl_eliminar_ne x (l.filter P) l hne,
        foldl_eliminar_filter P l]

lemma eliminar_aristas_spec (g : GrafoTrafico) (u n : Nat)
    (hWF : HashTable.WF pyHashNat g.lista_adyacencia) :
    (GrafoTrafico.eliminar_aristas_hacia_nodo g u n).nodos = g.nodos ∧
      HashTable.WF pyHashNat
        (GrafoTrafico.eliminar_aristas_hacia_nodo g u n).lista_adyacencia ∧
      HashTable.obtenerClaves
          (GrafoTrafico.eliminar_aristas_hacia_nodo g u n).lista_adyacencia =
        HashTable.obtenerClaves g.lista_adyacencia ∧
      HashTable.obtener pyHashNat
          (GrafoTrafico.eliminar_aristas_hacia_nodo g u n).lista_adyacencia u =
        (HashTable.obtener pyHashNat g.lista_adyacencia u).map
          (fun l => l.filter fun a => !(decide (a.destino.id = n))) ∧
      ∀ u', u' ≠ u →
        HashTable.obtener pyHashNat
            (GrafoTrafico.eliminar_aristas_hacia_nodo g u n).lista_adyacencia
            u' =
          HashTable.obtener pyHashNat g.lista_adyacencia u' := by
  cases hL : HashTable.obtener pyHashNat g.lista_adyacencia u with
  | none =>
    have hE : GrafoTrafico.eliminar_aristas_hacia_nodo g u n = g := by
      unfold GrafoTrafico.eliminar_aristas_hacia_nodo
      rw [hL]
    rw [hE, hL]
    exact ⟨rfl, hWF, rfl, rfl, fun _ _ => rfl⟩
  | some l =>
    have hE : GrafoTrafico.eliminar_aristas_hacia_nodo g u n =
        { g with lista_adyacencia :=
            (HashTable.modificaEnSitio pyHashNat g.lista_adyacencia u
              (fun lista =>
                (l.filter fun a => decide (a.destino.id = n)).foldl
                  (fun acc a => (ListaEnlazada.eliminar acc a).2) lista)) } := by
      unfold GrafoTrafico.eliminar_aristas_hacia_nodo
      rw [hL]
    obtain ⟨hWF1, hclaves1, htam1, hself1, hframe1⟩ :=
      HashTable.modifica_spec hWF u
        (fun lista =>
          (l.filter fun a => decide (a.destino.id = n)).foldl
            (fun acc a => (ListaEnlazada.eliminar acc a).2) lista)
    rw [hE]
    refine ⟨rfl, hWF1, hclaves1, ?_, hframe1⟩
    show HashTable.obtener pyHashNat
        (HashTable.modificaEnSitio pyHashNat g.lista_adyacencia u
          (fun lista =>
            (l.filter fun a => decide (a.destino.id = n)).foldl
              (fun acc a => (ListaEnlazada.eliminar acc a).2) lista)) u =
      (some l).map (fun l' => l'.filter fun a => !(decide (a.destino.id = n)))
    rw [hself1, hL]
    simp only [Option.map_some']
    congr 1
    exact foldl_eliminar_filter (fun a => decide (a.destino.id = n)) l

lemma prune_fold_spec (n : Nat) (paso : GrafoTrafico → Nat → GrafoTrafico)
    (hpaso : ∀ acc u, paso acc u =
      if u ≠ n then GrafoTrafico.eliminar_aristas_hacia_nodo acc u n
      else acc) :
    ∀ (ks : List Nat) (acc : GrafoTrafico),
      HashTable.WF pyHashNat acc.lista_adyacencia →
      (HashTable.obtenerClaves acc.lista_adyacencia).Nodup →
      (ks.foldl paso acc).nodos = acc.nodos ∧
        HashTable.WF pyHashNat (ks.foldl paso acc).lista_adyacencia ∧
        (HashTable.obtenerClaves (ks.foldl paso acc).lista_adyacencia).Nodup ∧
        (∀ u, u ∉ ks →
          HashTable.obtener pyHashNat (ks.foldl paso acc).lista_adyacencia u =
            HashTable.obtener pyHashNat acc.lista_adyacencia u) ∧
        HashTable.obtener pyHashNat (ks.foldl paso acc).lista_adyacencia n =
          HashTable.obtener pyHashNat acc.lista_adyacencia n ∧
        (∀ u ∈ ks, u ≠ n →
          HashTable.obtener pyHashNat (ks.foldl paso acc).lista_adyacencia u =
            (HashTable.obtener pyHashNat acc.lista_adyacencia u).map
              (fun l => l.filter fun a => !(decide (a.destino.id = n))))
  | [], acc, hWF, hnd =>
    ⟨rfl, hWF, hnd, fun _ _ => rfl, rfl, fun u hu => absurd hu (by simp)⟩
  | u :: ks, acc, hWF, hnd => by
    rw [List.foldl_cons, hpaso]
    by_cases hun : u = n
    · rw [if_neg (fun h => h hun)]
      obtain ⟨ihnodos, ihWF, ihnd, ihframe, ihn, ihmem⟩ :=
        prune_fold_spec n paso hpaso ks acc hWF hnd
      refine ⟨ihnodos, ihWF, ihnd, ?_, ihn, ?_⟩
      · intro u' hu'
        exact ihframe u' (fun h => hu' (List.mem_cons_of_mem u h))
      · intro u' hu' hu'n
        have hmem : u' ∈ ks := by
          rcases List.mem_cons.1 hu' with h | h
          · exact absurd (h.trans hun) hu'n
          · exact h
        exact ihmem u' hmem hu'n
    · rw [if_pos hun]
      obtain ⟨hpn, hpWF, hpclaves, hpself, hpframe⟩ :=
        eliminar_aristas_spec acc u n hWF
      have hnd1 : (HashTable.obtenerClaves
          (GrafoTrafico.eliminar_aristas_hacia_nodo acc u
            n).lista_adyacencia).Nodup := by
        rw [hpclaves]
        exact hnd
      obtain ⟨ihnodos, ihWF, ihnd, ihframe, ihn, ihmem⟩ :=
        prune_fold_spec n paso hpaso ks
          (GrafoTrafico.eliminar_aristas_hacia_nodo acc u n) hpWF hnd1
      refine ⟨ihnodos.trans hpn, ihWF, ihnd, ?_, ?_, ?_⟩
      · intro u' hu'
        have hks : u' ∉ ks := fun h => hu' (List.mem_cons_of_mem u h)
        have huu : u' ≠ u := fun h => hu' (by rw [h]; exact List.mem_cons_self u ks)
        rw [ihframe u' hks, hpframe u' huu]
      · rw [ihn, hpframe n (Ne.symm hun)]
      · intro u' hu' hu'n
        by_cases h' : u' = u
        · subst h'
          by_cases hks : u' ∈ ks
          · rw [ihmem u' hks hu'n, hpself, Option.map_map]
            congr 1
            funext l
            show (l.filter fun a => !(decide (a.destino.id = n))).filter
                (fun a => !(decide (a.destino.id = n))) =
              l.filter fun a => !(decide (a.destino.id = n))
            rw [List.filter_filter]
            simp
          · rw [ihframe u' hks, hpself]
        · have hks : u' ∈ ks := by
            rcases List.mem_cons.1 hu' with h | h
            · exact absurd h h'
            · exact h
          rw [ihmem u' hks hu'n, hpframe u' h']

lemma eliminar_nodo_despues (g : GrafoTrafico) (n : Nat) (g1 : GrafoTrafico)
    (hguard : HashTable.contiene pyHashNat g.nodos n = true)
    (hfold : (HashTable.obtenerClaves g.nodos).foldl
        (fun acc u => if u ≠ n
          then GrafoTrafico.eliminar_aristas_hacia_nodo acc u n else acc) g =
      g1) :
    g.eliminar_nodo n =
      (true, { g1 with
        nodos := (HashTable.eliminar pyHashNat g1.nodos n).2,
        lista_adyacencia :=
          (HashTable.eliminar pyHashNat g1.lista_adyacencia n).2 }) := by
  unfold GrafoTrafico.eliminar_nodo
  rw [if_neg (by simp [hguard]), hfold]

lemma c9_core (g : GrafoTrafico) (n : Nat) (g1 : GrafoTrafico)
    (hE : g.eliminar_nodo n =
      (true, { g1 with
        nodos := (HashTable.eliminar pyHashNat g1.nodos n).2,
        lista_adyacencia :=
          (HashTable.eliminar pyHashNat g1.lista_adyacencia n).2 }))
    (h1nodos : g1.nodos = g.nodos)
    (h1WF : HashTable.WF pyHashNat g1.lista_adyacencia)
    (h1nd : (HashTable.obtenerClaves g1.lista_adyacencia).Nodup)
    (h1mem : ∀ u ∈ HashTable.obtenerClaves g.nodos, u ≠ n →
      HashTable.obtener pyHashNat g1.lista_adyacencia u =
        (HashTable.obtener pyHashNat g.lista_adyacencia u).map
          (fun l => l.filter fun a => !(decide (a.destino.id = n))))
    (hWFn : HashTable.WF pyHashNat g.nodos)
    (hndn : (HashTable.obtenerClaves g.nodos).Nodup)
    (hn : HashTable.contiene pyHashNat g.nodos n = true)
    (hWFa : HashTable.WF pyHashNat g.lista_adyacencia)
    (hedges : ∀ par ∈ g.lista_adyacencia.buckets.flatten, ∀ a ∈ par.2,
      a.origen.id = par.1 ∧
        HashTable.contiene pyHashNat g.nodos a.destino.id = true) :
    (g.eliminar_nodo n).1 = true ∧
      HashTable.obtener pyHashNat (g.eliminar_nodo n).2.nodos n = none ∧
      HashTable.obtener pyHashNat
        (g.eliminar_nodo n).2.lista_adyacencia n = none ∧
      (∀ a ∈ (g.eliminar_nodo n).2.obtener_todas_aristas,
        a.destino.id ≠ n) ∧
      (g.eliminar_nodo n).2.validar_integridad = [] := by
  have hWFn1 : HashTable.WF pyHashNat g1.nodos := by
    rw [h1nodos]; exact hWFn
  have hndn1 : (HashTable.obtenerClaves g1.nodos).Nodup := by
    rw [h1nodos]; exact hndn
  have hn1 : HashTable.contiene pyHashNat g1.nodos n = true := by
    rw [h1nodos]; exact hn
  obtain ⟨-, hWFN, -, hNnone, hNframe, hNmem⟩ :=
    HashTable.eliminar_spec hWFn1 hndn1 hn1
  have hAframe : ∀ u, u ≠ n →
      HashTable.obtener pyHashNat
          (HashTable.eliminar pyHashNat g1.lista_adyacencia n).2 u =
        HashTable.obtener pyHashNat g1.lista_adyacencia u := by
    intro u hu
    cases hca : HashTable.contiene pyHashNat g1.lista_adyacencia n with
    | false =>
      have hid : (HashTable.eliminar pyHashNat g1.lista_adyacencia n).2 =
          g1.lista_adyacencia := by
        rw [HashTable.eliminar_contiene_false hca]
      rw [hid]
    | true => exact (HashTable.eliminar_spec h1WF h1nd hca).2.2.2.2.1 u hu
  have hAnone : HashTable.obtener pyHashNat
      (HashTable.eliminar pyHashNat g1.lista_adyacencia n).2 n = none := by
    cases hca : HashTable.contiene pyHashNat g1.lista_adyacencia n with
    | true => exact (HashTable.eliminar_spec h1WF h1nd hca).2.2.2.1
    | false =>
      have hid : (HashTable.eliminar pyHashNat g1.lista_adyacencia n).2 =
          g1.lista_adyacencia := by
        rw [HashTable.eliminar_contiene_false hca]
      rw [hid]
      cases ho : HashTable.obtener pyHashNat g1.lista_adyacencia n with
      | none => rfl
      | some l =>
        unfold HashTable.contiene at hca
        rw [ho] at hca
        simp at hca
  have hmain : ∀ a ∈ GrafoTrafico.obtener_todas_aristas
      { g1 with
        nodos := (HashTable.eliminar pyHashNat g1.nodos n).2,
        lista_adyacencia :=
          (HashTable.eliminar pyHashNat g1.lista_adyacencia n).2 },
      a.destino.id ≠ n ∧
        a.origen.id ∈ HashTable.obtenerClaves
          (HashTable.eliminar pyHashNat g1.nodos n).2 ∧
        HashTable.contiene pyHashNat g.nodos a.destino.id = true := by
    intro a ha
    unfold GrafoTrafico.obtener_todas_aristas at ha
    rcases List.mem_flatMap.1 ha with ⟨u, hu, hau⟩
    have hu' : u ∈ HashTable.obtenerClaves
        (HashTable.eliminar pyHashNat g1.nodos n).2 := hu
    obtain ⟨hug1, hune⟩ := (hNmem u).1 hu'
    have hug : u ∈ HashTable.obtenerClaves g.nodos := by
      rw [h1nodos] at hug1
      exact hug1
    have hau' : a ∈ (HashTable.obtener pyHashNat
        (HashTable.eliminar pyHashNat g1.lista_adyacencia n).2 u).getD [] :=
      hau
    rw [hAframe u hune, h1mem u hug hune] at hau'
    cases hL : HashTable.obtener pyHashNat g.lista_adyacencia u with
    | none =>
      rw [hL] at hau'
      simp at hau'
    | some l =>
      rw [hL] at hau'
      have hau2 : a ∈ l.filter (fun a => !(decide (a.destino.id = n))) := hau'
      obtain ⟨hal, hfa⟩ := List.mem_filter.1 hau2
      have hdest : a.destino.id ≠ n := by simpa using hfa
      have hflat : ((u, l) : Nat × List AristaGrafo) ∈
          g.lista_adyacencia.buckets.flatten :=
        HashTable.obtener_mem_flatten hWFa hL
      obtain ⟨horig, hdestc⟩ := hedges (u, l) hflat a hal
      refine ⟨hdest, ?_, hdestc⟩
      rw [horig]
      exact hu'
  refine ⟨by rw [hE], ?_, ?_, ?_, ?_⟩
  · rw [hE]
    exact hNnone
  · rw [hE]
    exact hAnone
  · rw [hE]
    intro a ha
    exact (hmain a ha).1
  · rw [hE]
    show GrafoTrafico.validar_integridad
      { g1 with
        nodos := (HashTable.eliminar pyHashNat g1.nodos n).2,
        lista_adyacencia :=
          (HashTable.eliminar pyHashNat g1.lista_adyacencia n).2 } = []
    unfold GrafoTrafico.validar_integridad
    rw [List.flatMap_eq_nil_iff]
    intro a ha
    obtain ⟨hdest, horigmem, hdestc⟩ := hmain a ha
    have horigc : HashTable.contiene pyHashNat
        (HashTable.eliminar pyHashNat g1.nodos n).2 a.origen.id = true :=
      (HashTable.mem_claves_iff hWFN a.origen.id).1 horigmem
    have hdestc' : HashTable.contiene pyHashNat
        (HashTable.eliminar pyHashNat g1.nodos n).2 a.destino.id = true := by
      unfold HashTable.contiene
      rw [hNframe a.destino.id hdest, h1nodos]
      exact hdestc
    show (if HashTable.contiene pyHashNat
          (HashTable.eliminar pyHashNat g1.nodos n).2 a.origen.id = false then
        ["Nodo origen " ++ toString a.origen.id ++ " no existe"]
      else []) ++
      (if HashTable.contiene pyHashNat
          (HashTable.eliminar pyHashNat g1.nodos n).2 a.destino.id =
            false then
        ["Nodo destino " ++ toString a.destino.id ++ " no existe"]
      else []) = []
    rw [if_neg (by simp [horigc]), if_neg (by simp [hdestc'])]
    rfl

/-- C9: on every well-formed graph state that contains a node with id `n`,
`eliminar_nodo n` returns `true`, removes the node and its adjacency
entry, prunes every remaining edge whose destination is `n`, and
`validar_integridad` afterwards reports no dangling references. -/
theorem c9_eliminar_nodo_poda (g : GrafoTrafico) (n : Nat)
    (hbf : g.bienFormado)
    (hn : HashTable.contiene pyHashNat g.nodos n = true) :
    (g.eliminar_nodo n).1 = true ∧
      HashTable.obtener pyHashNat (g.eliminar_nodo n).2.nodos n = none ∧
      HashTable.obtener pyHashNat
        (g.eliminar_nodo n).2.lista_adyacencia n = none ∧
      (∀ a ∈ (g.eliminar_nodo n).2.obtener_todas_aristas,
        a.destino.id ≠ n) ∧
      (g.eliminar_nodo n).2.validar_integridad = [] := by
  obtain ⟨hWFn, hndn, hWFa, hnda, hedges⟩ := hbf
  obtain ⟨h1nodos, h1WF, h1nd, -, -, h1mem⟩ :=
    prune_fold_spec n
      (fun acc u => if u ≠ n
        then GrafoTrafico.eliminar_aristas_hacia_nodo acc u n else acc)
      (fun _ _ => rfl) (HashTable.obtenerClaves g.nodos) g hWFa hnda
  exact c9_core g n _
    (eliminar_nodo_despues g n _ hn rfl)
    h1nodos h1WF h1nd h1mem hWFn hndn hn hWFa hedges

/-- C9 witness: removing node 2 (the middle node B) from the scenario
graph succeeds, drops the node and its adjacency entry, leaves no edge
targeting it, and the integrity check reports nothing. -/
theorem c9_eliminar_nodo_poda_witness :
    (grafoABC.eliminar_nodo 2).1 = true ∧
      HashTable.obtener pyHashNat (grafoABC.eliminar_nodo 2).2.nodos 2 =
        none ∧
      HashTable.obtener pyHashNat
        (grafoABC.eliminar_nodo 2).2.lista_adyacencia 2 = none ∧
      (∀ a ∈ (grafoABC.eliminar_nodo 2).2.obtener_todas_aristas,
        a.destino.id ≠ 2) ∧
      (grafoABC.eliminar_nodo 2).2.validar_integridad = [] :=
  c9_eliminar_nodo_poda grafoABC 2 (by decide) (by decide)
